import Mathlib

/-!
Verification of the hackrx document question-answering service.

Text is modelled as `List Char` (a Python `str` is a sequence of code
points).  Each Python function of the repository that the claims touch is
shallowly embedded as a Lean function; effectful calls into external
services (HTTP, the PDF parsing libraries, the embedding model, the LLM)
are passed in as explicit oracle arguments, so the embeddings are pure.
-/

/-- Python strings as lists of code points. -/
abbrev Str := List Char

/-- Python regex class `\s` restricted to the ASCII range: space, tab,
newline, carriage return, form feed, vertical tab.  `str.strip()` strips
the same set. -/
def pyIsSpace (c : Char) : Bool :=
  c = ' ' || c = '\t' || c = '\n' || c = '\r' || c = '\x0c' || c = '\x0b'

/-- Python `str.strip()`: drop leading and trailing whitespace. -/
def pyStrip (l : Str) : Str :=
  ((l.dropWhile pyIsSpace).reverse.dropWhile pyIsSpace).reverse

/-- Python `str.lower()` restricted to ASCII case mapping. -/
def pyLower (l : Str) : Str :=
  l.map Char.toLower

/-- The two-character separator used by `text.split('\n\n')`. -/
def nlnl : Str := ['\n', '\n']

/-- Python `text.split('\n\n')`: split on every non-overlapping,
leftmost occurrence of the two-character separator. -/
def splitNlNl : Str → List Str
  | [] => [[]]
  | '\n' :: '\n' :: rest => [] :: splitNlNl rest
  | c :: rest =>
    match splitNlNl rest with
    | s :: ss => (c :: s) :: ss
    | [] => [[c]]

/-- Python `'\n\n'.join(parts)`. -/
def joinNlNl : List Str → Str
  | [] => []
  | [x] => x
  | x :: xs => x ++ nlnl ++ joinNlNl xs

/-- Length of `pyStrip` never exceeds the input length. -/
theorem pyStrip_length_le (l : Str) : (pyStrip l).length ≤ l.length := by
  unfold pyStrip
  calc ((l.dropWhile pyIsSpace).reverse.dropWhile pyIsSpace).reverse.length
      = ((l.dropWhile pyIsSpace).reverse.dropWhile pyIsSpace).length := by
        rw [List.length_reverse]
    _ ≤ (l.dropWhile pyIsSpace).reverse.length := (List.dropWhile_sublist _).length_le
    _ = (l.dropWhile pyIsSpace).length := by rw [List.length_reverse]
    _ ≤ l.length := (List.dropWhile_sublist _).length_le

/-- A list free of whitespace is unchanged by `pyStrip`. -/
theorem pyStrip_of_no_space (l : Str) (h : ∀ c ∈ l, pyIsSpace c = false) :
    pyStrip l = l := by
  have hdrop : ∀ (m : Str), (∀ c ∈ m, pyIsSpace c = false) → m.dropWhile pyIsSpace = m := by
    intro m hm
    cases m with
    | nil => rfl
    | cons c rest =>
      rw [List.dropWhile_cons]
      simp [hm c (List.mem_cons_self c rest)]
  unfold pyStrip
  rw [hdrop l h, hdrop l.reverse (fun c hc => h c (List.mem_reverse.mp hc)), List.reverse_reverse]

/-- `pyStrip` of a run of a non-whitespace character is the run itself. -/
theorem pyStrip_replicate_a (n : Nat) : pyStrip (List.replicate n 'a') = List.replicate n 'a' := by
  apply pyStrip_of_no_space
  intro c hc
  rw [List.eq_of_mem_replicate hc]
  rfl

/-- `splitNlNl` on a run of a character other than a newline is the whole
run as a single segment. -/
theorem splitNlNl_replicate_a (n : Nat) :
    splitNlNl (List.replicate n 'a') = [List.replicate n 'a'] := by
  induction n with
  | zero => rfl
  | succ m ih =>
    rw [List.replicate_succ]
    cases hm : List.replicate m 'a' with
    | nil => rfl
    | cons x xs =>
      have hx : x = 'a' := by
        have : x ∈ List.replicate m 'a' := by rw [hm]; exact List.mem_cons_self x xs
        exact List.eq_of_mem_replicate this
      subst hx
      show splitNlNl ('a' :: 'a' :: xs) = _
      rw [show splitNlNl ('a' :: 'a' :: xs) =
            (match splitNlNl ('a' :: xs) with
             | s :: ss => ('a' :: s) :: ss
             | [] => [['a']]) from rfl]
      rw [← hm, ih, hm]

namespace PDFProc

/-! Shallow embedding of `src/components/pdf_processor.py` (`PDFProcessor`). -/

/-- One page record produced by `extract_text_from_pdf`. -/
structure PageContent where
  page_number : Nat
  content : Str
deriving DecidableEq

/-- One chunk record produced by `create_chunks`.  The source labels the
chunk with the string `"chunk_" + str(chunk_id)`; we keep the counter. -/
structure Chunk where
  chunk_id : Nat
  content : Str
  page_number : Nat
  char_start : Nat
  char_end : Nat
deriving DecidableEq

/-- Python `str.rfind(c)`: index of the last occurrence, `-1` if absent. -/
def rfindC : Str → Char → Int
  | [], _ => -1
  | a :: rest, c =>
    let r := rfindC rest c
    if 0 ≤ r then r + 1 else if a = c then 0 else -1

/-- `max(overlap_text.rfind('.'), overlap_text.rfind('!'), overlap_text.rfind('?'))`. -/
def sentenceEnd (tail : Str) : Int :=
  max (rfindC tail '.') (max (rfindC tail '!') (rfindC tail '?'))

/-- Python `text[-k:]`: the trailing `k` characters when `k ≥ 1`; at
`k = 0` the slice is `text[0:]`, the whole string. -/
def pySliceNeg (text : Str) (k : Nat) : Str :=
  if k = 0 then text else text.drop (text.length - k)

/-- `PDFProcessor._get_overlap_text` (pdf_processor.py lines 132-150):
overlap text taken from the end of the sealed buffer, trimmed back to
just after the last sentence terminator when one sits past the midpoint
of the overlap window.  The window is the Python slice
`text[-overlap_size:]`, which at `overlap_size = 0` is the whole
buffer. -/
def get_overlap_text (text : Str) (overlap_size : Nat) : Str :=
  if text.length ≤ overlap_size then text
  else if (overlap_size / 2 : Int) < sentenceEnd (pySliceNeg text overlap_size) then
    pyStrip ((pySliceNeg text overlap_size).drop
      ((sentenceEnd (pySliceNeg text overlap_size)).toNat + 1))
  else pySliceNeg text overlap_size

/-- Loop state of `create_chunks` while scanning one page. -/
structure BufState where
  chunks : List Chunk
  chunk_id : Nat
  current_chunk : Str
  current_chunk_start : Nat

/-- Body of the paragraph loop of `create_chunks` (lines 91-116): strip
the paragraph, skip it when empty, otherwise either seal the buffer into
a chunk (seeding the next buffer with the overlap text) or append the
paragraph to the buffer. -/
def paraStep (chunk_size chunk_overlap page_num : Nat) (st : BufState) (para0 : Str) :
    BufState :=
  let para := pyStrip para0
  if para = [] then st
  else if chunk_size < st.current_chunk.length + para.length ∧ st.current_chunk ≠ [] then
    let sealed : Chunk :=
      ⟨st.chunk_id, pyStrip st.current_chunk, page_num, st.current_chunk_start,
        st.current_chunk_start + st.current_chunk.length⟩
    let overlap_text := get_overlap_text st.current_chunk chunk_overlap
    let new_chunk := if overlap_text ≠ [] then overlap_text ++ nlnl ++ para else para
    let new_start :=
      if overlap_text ≠ [] then
        st.current_chunk_start + new_chunk.length - overlap_text.length
      else st.current_chunk_start + new_chunk.length
    ⟨st.chunks ++ [sealed], st.chunk_id + 1, new_chunk, new_start⟩
  else
    ⟨st.chunks, st.chunk_id,
      if st.current_chunk ≠ [] then st.current_chunk ++ nlnl ++ para else para,
      st.current_chunk_start⟩

/-- Lines 118-127 of pdf_processor.py: after the paragraph loop of a
page, append the trailing buffer as a final chunk when its stripped
content is non-empty. -/
def pageFlush (page_num : Nat) (fin : BufState) : List Chunk × Nat :=
  if pyStrip fin.current_chunk ≠ [] then
    (fin.chunks ++
      [⟨fin.chunk_id, pyStrip fin.current_chunk, page_num,
         fin.current_chunk_start, fin.current_chunk_start + fin.current_chunk.length⟩],
     fin.chunk_id + 1)
  else (fin.chunks, fin.chunk_id)

/-- Per-page part of `create_chunks`: run the paragraph loop over the
page text split on blank lines, then flush the trailing buffer. -/
def pageChunks (chunk_size chunk_overlap : Nat) (chunks0 : List Chunk) (id0 : Nat)
    (page : PageContent) : List Chunk × Nat :=
  pageFlush page.page_number
    ((splitNlNl page.content).foldl (paraStep chunk_size chunk_overlap page.page_number)
      ⟨chunks0, id0, [], 0⟩)

/-- `PDFProcessor.create_chunks` (pdf_processor.py lines 76-130). -/
def create_chunks (chunk_size chunk_overlap : Nat) (pages_content : List PageContent) :
    List Chunk :=
  (pages_content.foldl
    (fun (acc : List Chunk × Nat) page => pageChunks chunk_size chunk_overlap acc.1 acc.2 page)
    ([], 0)).1

end PDFProc

/-- Python `needle in hay` on strings: substring containment. -/
def isSubstr (needle : Str) : Str → Bool
  | [] => needle.isEmpty
  | c :: rest => List.isPrefixOf needle (c :: rest) || isSubstr needle rest

namespace App

/-! Shallow embedding of `app.py` (the deployed FastAPI service). -/

/-- Document categories distinguished by `detect_document_type`; the
source represents them as the strings `"insurance"`, `"legal"`,
`"scientific"`, with any other string taking the default branch of
`chunk_text_intelligently`. -/
inductive DocType where
  | insurance
  | legal
  | scientific
  | other
deriving DecidableEq

def insuranceKeywords : List Str :=
  [("policy").data, ("premium").data, ("insured").data, ("coverage").data,
   ("beneficiary").data, ("claim").data]

def legalKeywords : List Str :=
  [("constitution").data, ("article").data, ("section").data, ("law").data,
   ("court").data, ("legal").data]

def scienceKeywords : List Str :=
  [("theorem").data, ("principle").data, ("mathematical").data, ("physics").data,
   ("equation").data, ("law of").data]

/-- `sum(1 for keyword in kws if keyword in text_lower)`. -/
def keywordScore (kws : List Str) (textLower : Str) : Nat :=
  (kws.filter fun k => isSubstr k textLower).length

/-- `detect_document_type` (app.py lines 269-291).  Python
`max(scores, key=scores.get)` returns the first key of the dict
`{insurance, legal, scientific}` attaining the maximal score. -/
def detect_document_type (text : Str) : DocType :=
  let tl := pyLower text
  let ins := keywordScore insuranceKeywords tl
  let leg := keywordScore legalKeywords tl
  let sci := keywordScore scienceKeywords tl
  let m := max ins (max leg sci)
  if ins = m then .insurance
  else if leg = m then .legal
  else .scientific

/-- Case-insensitive prefix match of a (lowercase) keyword; returns the
remainder of the text after the keyword. -/
def ciPrefixRest (kw : Str) (l : Str) : Option Str :=
  match kw, l with
  | [], rest => some rest
  | _ :: _, [] => none
  | k :: ks, c :: cs => if c.toLower = k.toLower then ciPrefixRest ks cs else none

/-- Regex fragment `\s+\d+`: at least one whitespace character followed
by at least one digit, both matched greedily; returns the remainder. -/
def wsDigitsRest (l : Str) : Option Str :=
  match l with
  | [] => none
  | c :: rest =>
    if pyIsSpace c then
      match rest.dropWhile pyIsSpace with
      | [] => none
      | d :: ds => if d.isDigit then some (ds.dropWhile Char.isDigit) else none
    else none

/-- Try to match `(?i)(kw1|kw2|...)\s+\d+` at the start of `l`; on
success returns the captured keyword text as it appears in `l`, and the
remainder after the whole match.  The keyword alternatives used in the
source all start with distinct letters, so no backtracking between
alternatives can occur. -/
def matchKwNum (kws : List Str) (l : Str) : Option (Str × Str) :=
  kws.findSome? fun kw =>
    (ciPrefixRest kw l).bind fun rest =>
      (wsDigitsRest rest).map fun rest2 => (l.take kw.length, rest2)

/-- Scanner for `re.split(r'(?i)(kw1|kw2|...)\s+\d+', text)`: split at
every non-overlapping leftmost match, keeping the captured group between
segments, as `re.split` does for patterns with one capturing group.
`fuel` starts at the text length; every step consumes at least one
character, so the fuel never runs out. -/
def reSplitGo (kws : List Str) : Nat → Str → Str → List Str
  | _, cur, [] => [cur.reverse]
  | 0, cur, l => [cur.reverse ++ l]
  | fuel + 1, cur, c :: rest =>
    match matchKwNum kws (c :: rest) with
    | some (cap, rest2) => cur.reverse :: cap :: reSplitGo kws fuel [] rest2
    | none => reSplitGo kws fuel (c :: cur) rest

/-- `re.split(r'(?i)(kw1|kw2|...)\s+\d+', text)`. -/
def reSplitKwNum (kws : List Str) (l : Str) : List Str :=
  reSplitGo kws l.length [] l

def legalSplitKws : List Str := [("article").data, ("section").data]

def insuranceSplitKws : List Str := [("section").data, ("clause").data, ("part").data]

def scienceSplitKws : List Str := [("chapter").data, ("book").data, ("proposition").data]

/-- `[chunk[i:i+max_chunk_size] for i in range(0, len(chunk), max_chunk_size)]`.
`fuel` starts at the list length; with a positive slice size every step
consumes at least one character, so the fuel never runs out (the source
would raise on a zero step, a case no caller exercises). -/
def sliceGo (size : Nat) : Nat → Str → List Str
  | _, [] => []
  | 0, l => [l]
  | fuel + 1, l => l.take size :: sliceGo size fuel (l.drop size)

def sliceChunks (size : Nat) (l : Str) : List Str :=
  sliceGo size l.length l

/-- `chunk_text_intelligently` (app.py lines 293-319): split the text by
document type, hard-split any segment longer than `max_chunk_size` into
fixed-size slices, and drop segments whose stripped length is at most 50. -/
def chunk_text_intelligently (text : Str) (doc_type : DocType) (max_chunk_size : Nat) :
    List Str :=
  let chunks :=
    match doc_type with
    | .legal => reSplitKwNum legalSplitKws text
    | .insurance => reSplitKwNum insuranceSplitKws text
    | .scientific => reSplitKwNum scienceSplitKws text
    | .other => splitNlNl text
  let final_chunks := chunks.flatMap fun chunk =>
    if chunk.length ≤ max_chunk_size then [pyStrip chunk]
    else sliceChunks max_chunk_size chunk
  final_chunks.filter fun c => 50 < (pyStrip c).length

end App


/-! ### Claim C4: chunk size bound and hard-splitting -/

/-- Every slice produced by `App.sliceGo` has length at most `size`,
provided the fuel covers the list length and the size is positive. -/
theorem sliceGo_mem_length_le (size : Nat) (hs : 0 < size) :
    ∀ (fuel : Nat) (l : Str), l.length ≤ fuel →
      ∀ c ∈ App.sliceGo size fuel l, c.length ≤ size := by
  intro fuel
  induction fuel with
  | zero =>
    intro l hl c hc
    have : l = [] := List.eq_nil_of_length_eq_zero (Nat.le_zero.mp hl)
    subst this
    simp [App.sliceGo] at hc
  | succ f ih =>
    intro l hl c hc
    cases l with
    | nil => simp [App.sliceGo] at hc
    | cons x xs =>
      have hstep : App.sliceGo size (f + 1) (x :: xs)
          = (x :: xs).take size :: App.sliceGo size f ((x :: xs).drop size) := rfl
      rw [hstep] at hc
      rcases List.mem_cons.mp hc with h | h
      · subst h
        exact List.length_take_le size (x :: xs)
      · refine ih ((x :: xs).drop size) ?_ c h
        rw [List.length_drop]
        simp only [List.length_cons] at hl ⊢
        omega

/-- Every chunk emitted by `App.chunk_text_intelligently` has length at
most `max_chunk_size` (for a positive size): short segments are stripped
(which cannot lengthen them) and long segments are hard-split. -/
theorem chunk_text_intelligently_length_le (text : Str) (dt : App.DocType) (m : Nat)
    (hm : 0 < m) : ∀ c ∈ App.chunk_text_intelligently text dt m, c.length ≤ m := by
  intro c hc
  unfold App.chunk_text_intelligently at hc
  rcases List.mem_filter.mp hc with ⟨hmem, _⟩
  rcases List.mem_flatMap.mp hmem with ⟨chunk, _, hchunk⟩
  by_cases hlen : chunk.length ≤ m
  · rw [if_pos hlen] at hchunk
    rcases List.mem_singleton.mp hchunk with rfl
    exact le_trans (pyStrip_length_le chunk) hlen
  · rw [if_neg hlen] at hchunk
    exact sliceGo_mem_length_le m hm chunk.length chunk Nat.le.refl c hchunk

/-- Unfolding step of `App.sliceGo` on a run of `'a'`. -/
theorem sliceGo_replicate_step (size f n : Nat) (hn : 0 < n) :
    App.sliceGo size (f + 1) (List.replicate n 'a')
      = List.replicate (min size n) 'a' :: App.sliceGo size f (List.replicate (n - size) 'a') := by
  cases n with
  | zero => omega
  | succ k =>
    rw [List.replicate_succ]
    have hstep : App.sliceGo size (f + 1) ('a' :: List.replicate k 'a')
        = ('a' :: List.replicate k 'a').take size
            :: App.sliceGo size f (('a' :: List.replicate k 'a').drop size) := rfl
    rw [hstep, ← List.replicate_succ, List.take_replicate, List.drop_replicate]

/-- `chunk_text_intelligently` on one 9000-character paragraph with
`max_chunk_size = 4000`: the paragraph is hard-split into three slices. -/
theorem chunk_text_9000 :
    App.chunk_text_intelligently (List.replicate 9000 'a') App.DocType.other 4000
      = [List.replicate 4000 'a', List.replicate 4000 'a', List.replicate 1000 'a'] := by
  have hslice : App.sliceChunks 4000 (List.replicate 9000 'a')
      = [List.replicate 4000 'a', List.replicate 4000 'a', List.replicate 1000 'a'] := by
    unfold App.sliceChunks
    rw [List.length_replicate]
    rw [show (9000 : Nat) = 8999 + 1 from rfl, sliceGo_replicate_step _ _ _ (by omega)]
    rw [show ((8999 + 1 : Nat) - 4000) = 5000 from rfl]
    rw [show (8999 : Nat) = 8998 + 1 from rfl, sliceGo_replicate_step _ _ _ (by omega)]
    rw [show ((5000 : Nat) - 4000) = 1000 from rfl]
    rw [show (8998 : Nat) = 8997 + 1 from rfl, sliceGo_replicate_step _ _ _ (by omega)]
    rw [show ((1000 : Nat) - 4000) = 0 from rfl]
    rw [show List.replicate 0 'a' = ([] : Str) from rfl]
    rw [show App.sliceGo 4000 8997 ([] : Str) = [] from rfl]
    rw [show min 4000 (8999 + 1) = 4000 from by omega]
    rw [show min 4000 5000 = 4000 from by omega]
    rw [show min 4000 1000 = 1000 from by omega]
  unfold App.chunk_text_intelligently
  rw [splitNlNl_replicate_a]
  have h9 : ¬ (List.replicate 9000 'a').length ≤ 4000 := by
    rw [List.length_replicate]; omega
  simp only [List.flatMap_cons, List.flatMap_nil, if_neg h9, hslice, List.append_nil]
  rw [List.filter_eq_self.mpr]
  intro x hx
  simp only [List.mem_cons, List.not_mem_nil, or_false] at hx
  rcases hx with rfl | rfl | rfl <;>
    · rw [pyStrip_replicate_a, List.length_replicate]
      decide

/-- One paragraph step of `create_chunks` on an empty buffer simply loads
the (stripped) paragraph into the buffer, regardless of its size: the
seal-and-split branch requires a non-empty buffer. -/
theorem paraStep_empty_buffer (cs co pn : Nat) (chunks0 : List PDFProc.Chunk)
    (id0 start : Nat) (para : Str) (hp : pyStrip para = para) (hne : para ≠ []) :
    PDFProc.paraStep cs co pn ⟨chunks0, id0, [], start⟩ para
      = ⟨chunks0, id0, para, start⟩ := by
  simp only [PDFProc.paraStep]
  rw [hp, if_neg hne]
  split
  · rename_i h
    exact absurd rfl h.2
  · split
    · rename_i h2
      exact absurd rfl h2
    · rfl

/-- Claim C4, counterexample: `PDFProcessor.create_chunks` does not
hard-split an oversized single paragraph.  A single page holding one
9000-character paragraph with `chunk_size = 4000` yields exactly one
chunk of 9000 characters: more than `max_chunk_size`, and one chunk
rather than at least three. -/
theorem C4_counterexample :
    PDFProc.create_chunks 4000 50 [⟨1, List.replicate 9000 'a'⟩]
        = [⟨0, List.replicate 9000 'a', 1, 0, 9000⟩]
    ∧ (PDFProc.create_chunks 4000 50 [⟨1, List.replicate 9000 'a'⟩]).length = 1
    ∧ ∀ c ∈ PDFProc.create_chunks 4000 50 [⟨1, List.replicate 9000 'a'⟩],
        4000 < c.content.length := by
  have hne : List.replicate 9000 'a' ≠ ([] : Str) := by
    rw [show (9000 : Nat) = 8999 + 1 from rfl]
    exact List.replicate_succ_ne_nil 8999 'a'
  have hpage : PDFProc.pageChunks 4000 50 [] 0 ⟨1, List.replicate 9000 'a'⟩
      = ([⟨0, List.replicate 9000 'a', 1, 0, 9000⟩], 1) := by
    unfold PDFProc.pageChunks
    rw [show ((⟨1, List.replicate 9000 'a'⟩ : PDFProc.PageContent).content)
          = List.replicate 9000 'a' from rfl]
    rw [splitNlNl_replicate_a, List.foldl_cons, List.foldl_nil,
      paraStep_empty_buffer 4000 50 1 [] 0 0 _ (pyStrip_replicate_a 9000) hne]
    unfold PDFProc.pageFlush
    rw [show ((⟨[], 0, List.replicate 9000 'a', 0⟩ : PDFProc.BufState).current_chunk)
          = List.replicate 9000 'a' from rfl]
    rw [pyStrip_replicate_a, if_pos hne, List.length_replicate]
    rfl
  have h : PDFProc.create_chunks 4000 50 [⟨1, List.replicate 9000 'a'⟩]
      = [⟨0, List.replicate 9000 'a', 1, 0, 9000⟩] := by
    rw [PDFProc.create_chunks, List.foldl_cons, List.foldl_nil]
    exact congrArg Prod.fst hpage
  refine ⟨h, by rw [h]; rfl, ?_⟩
  intro c hc
  rw [h] at hc
  rcases List.mem_singleton.mp hc with rfl
  show 4000 < (List.replicate 9000 'a').length
  rw [List.length_replicate]
  omega

/-- Claim C4 (amended): the universal size bound and the 9000/4000
hard-splitting scenario hold for `chunk_text_intelligently` in `app.py`
(which hard-splits oversized segments), not for
`PDFProcessor.create_chunks`; the three slices cover the paragraph. -/
theorem C4_amended :
    (∀ (text : Str) (dt : App.DocType) (m : Nat), 0 < m →
        ∀ c ∈ App.chunk_text_intelligently text dt m, c.length ≤ m)
    ∧ App.chunk_text_intelligently (List.replicate 9000 'a') App.DocType.other 4000
        = [List.replicate 4000 'a', List.replicate 4000 'a', List.replicate 1000 'a']
    ∧ (App.chunk_text_intelligently (List.replicate 9000 'a') App.DocType.other 4000).flatten
        = List.replicate 9000 'a' := by
  refine ⟨chunk_text_intelligently_length_le, chunk_text_9000, ?_⟩
  rw [chunk_text_9000]
  simp only [List.flatten_cons, List.flatten_nil, List.append_nil]
  rw [← List.replicate_add, ← List.replicate_add]

/-- Witness for `C4_amended` at concrete inputs. -/
theorem C4_amended_witness :
    (0 : Nat) < 4000 ∧ (List.replicate 4000 'a').length ≤ 4000 := by
  refine ⟨by omega, ?_⟩
  exact C4_amended.1 (List.replicate 9000 'a') App.DocType.other 4000 (by omega)
    (List.replicate 4000 'a') (by rw [C4_amended.2.1]; exact List.mem_cons_self _ _)

/-! ### Claim C6: overlap seeding is bounded by `overlap_size` -/

/-- Counterexample to claim C6: at the config-reachable
`overlap_size = 0`, the sealed buffer `"aa"` is longer than the window,
yet Python's `text[-0:]` slice is the whole buffer, so
`_get_overlap_text` returns the entire 2-character buffer — the claimed
bound `length ≤ overlap_size` fails. -/
theorem C6_counterexample :
    PDFProc.get_overlap_text (("aa").data) 0 = ("aa").data
    ∧ ¬ (PDFProc.get_overlap_text (("aa").data) 0).length ≤ 0 := by
  constructor
  · rfl
  · decide

/-- C6 (amended): for every positive `overlap_size`, the overlap text
seeded into the next chunk never exceeds `overlap_size` characters;
when the buffer is longer than the window, the trailing window is used
verbatim unless a sentence terminator sits past its midpoint, in which
case the seed starts just after that terminator (and is stripped). -/
theorem C6_amended (text : Str) (o : Nat) (ho : 1 ≤ o) :
    (PDFProc.get_overlap_text text o).length ≤ o
    ∧ (o < text.length →
        (PDFProc.sentenceEnd (text.drop (text.length - o)) ≤ (o / 2 : Int) →
          PDFProc.get_overlap_text text o = text.drop (text.length - o))
        ∧ ((o / 2 : Int) < PDFProc.sentenceEnd (text.drop (text.length - o)) →
          PDFProc.get_overlap_text text o
            = pyStrip ((text.drop (text.length - o)).drop
                ((PDFProc.sentenceEnd (text.drop (text.length - o))).toNat + 1)))) := by
  have hslice : PDFProc.pySliceNeg text o = text.drop (text.length - o) := by
    rw [PDFProc.pySliceNeg, if_neg (by omega)]
  by_cases hlen : text.length ≤ o
  · refine ⟨?_, fun h => absurd hlen (by omega)⟩
    rw [PDFProc.get_overlap_text, if_pos hlen]
    exact hlen
  · have hlt : o < text.length := by omega
    have hdroplen : (text.drop (text.length - o)).length = o := by
      rw [List.length_drop]; omega
    by_cases hse : (o / 2 : Int) < PDFProc.sentenceEnd (text.drop (text.length - o))
    · refine ⟨?_, fun _ => ⟨fun hc => absurd hse (not_lt.mpr hc), fun _ => ?_⟩⟩
      · rw [PDFProc.get_overlap_text, if_neg hlen, hslice, if_pos hse]
        refine le_trans (pyStrip_length_le _) ?_
        rw [List.length_drop, hdroplen]
        omega
      · rw [PDFProc.get_overlap_text, if_neg hlen, hslice, if_pos hse]
    · refine ⟨?_, fun _ => ⟨fun _ => ?_, fun hc => absurd hc hse⟩⟩
      · rw [PDFProc.get_overlap_text, if_neg hlen, hslice, if_neg hse, hdroplen]
      · rw [PDFProc.get_overlap_text, if_neg hlen, hslice, if_neg hse]

/-- Witness for `C6_amended`: a buffer of 7 characters with a
5-character overlap window whose sentence terminator sits past the
window midpoint, so the seed is trimmed; its length stays at most 5. -/
theorem C6_amended_witness :
    (PDFProc.get_overlap_text (("abcde.x").data) 5).length ≤ 5
    ∧ PDFProc.get_overlap_text (("abcde.x").data) 5
        = pyStrip (((("abcde.x").data).drop ((("abcde.x").data).length - 5)).drop
            ((PDFProc.sentenceEnd ((("abcde.x").data).drop ((("abcde.x").data).length - 5))).toNat
              + 1)) :=
  ⟨(C6_amended (("abcde.x").data) 5 (by decide)).1,
   ((C6_amended (("abcde.x").data) 5 (by decide)).2 (by decide)).2 (by decide)⟩

/-! ### Claim C8: chunking is deterministic -/

/-- Claim C8: `create_chunks` is a pure function of its page input —
equal inputs give equal chunk lists, with the same count and the same
chunk records (contents, page numbers, character offsets). -/
theorem C8_chunking_deterministic (cs co : Nat) (ps qs : List PDFProc.PageContent)
    (h : ps = qs) :
    PDFProc.create_chunks cs co ps = PDFProc.create_chunks cs co qs
    ∧ (PDFProc.create_chunks cs co ps).length = (PDFProc.create_chunks cs co qs).length
    ∧ ∀ (i : Nat) (hi : i < (PDFProc.create_chunks cs co ps).length)
        (hj : i < (PDFProc.create_chunks cs co qs).length),
        (PDFProc.create_chunks cs co ps).get ⟨i, hi⟩
          = (PDFProc.create_chunks cs co qs).get ⟨i, hj⟩ := by
  subst h
  exact ⟨rfl, rfl, fun i hi hj => rfl⟩

/-- Witness for `C8_chunking_deterministic` on a concrete page list. -/
theorem C8_chunking_deterministic_witness :
    PDFProc.create_chunks 500 50 [⟨1, ("hello world. this is a test").data⟩]
      = PDFProc.create_chunks 500 50 [⟨1, ("hello world. this is a test").data⟩] :=
  (C8_chunking_deterministic 500 50 _ _ rfl).1

namespace App

/-! ### Text extraction (`extract_text_from_pdf_enhanced`, `clean_text`) -/

/-- First phase of `re.sub(r'\s+', ' ', text)`: send every whitespace
character to a plain space. -/
def wsToSpace (l : Str) : Str :=
  l.map fun c => if pyIsSpace c then ' ' else c

/-- Second phase of `re.sub(r'\s+', ' ', text)`: collapse runs of
spaces into a single space. -/
def squeezeSpaces : Str → Str
  | [] => []
  | [c] => [c]
  | a :: b :: rest =>
    if a = ' ' ∧ b = ' ' then squeezeSpaces (b :: rest)
    else a :: squeezeSpaces (b :: rest)

/-- `re.sub(r'\s+', ' ', text)`: every maximal whitespace run becomes
one space. -/
def collapseWs (l : Str) : Str :=
  squeezeSpaces (wsToSpace l)

/-- Match the regex fragment `\d+\n` (greedy digits, then a newline);
returns the remainder after the newline. -/
def digitsNl : Str → Option Str
  | [] => none
  | c :: rest =>
    if c.isDigit then
      match rest.dropWhile Char.isDigit with
      | d :: r => if d = '\n' then some r else none
      | [] => none
    else none

/-- Scanner for `re.sub(r'\n\d+\n', '\n', text)`: replace each
non-overlapping leftmost match by a newline and continue after the
match.  The fuel starts at the text length; every step consumes at
least one character, so it never runs out. -/
def subNumLinesGo : Nat → Str → Str
  | _, [] => []
  | 0, l => l
  | fuel + 1, c :: rest =>
    if c = '\n' then
      match digitsNl rest with
      | some r => '\n' :: subNumLinesGo fuel r
      | none => '\n' :: subNumLinesGo fuel rest
    else c :: subNumLinesGo fuel rest

/-- `re.sub(r'\n\d+\n', '\n', text)`. -/
def subNumLines (l : Str) : Str :=
  subNumLinesGo l.length l

/-- `re.sub(r'\f', '\n', text)`. -/
def ffToNl (l : Str) : Str :=
  l.map fun c => if c = '\x0c' then '\n' else c

/-- `clean_text` (app.py lines 255-267).  The two `replace` calls on
line 265 replace `'fi'` by `'fi'` and `'fl'` by `'fl'` — byte-identical
no-ops in the source file — so they contribute nothing. -/
def clean_text (text : Str) : Str :=
  ffToNl (subNumLines (collapseWs text))

/-- Page filter of the two main extraction loops (app.py lines 153,
191): `page_text and len(page_text.strip()) > 10`. -/
def keepPage (p : Str) : Bool :=
  decide (p ≠ []) && decide (10 < (pyStrip p).length)

/-- Page filter of the last-resort loop (app.py line 232): `if page_text`. -/
def keepAny (p : Str) : Bool :=
  decide (p ≠ [])

/-- Page-accumulation loop shared by the extraction strategies (app.py
lines 150-163, 187-203, 229-237): append each kept page plus a newline,
and stop after the first iteration at which the accumulated text
exceeds `cap` characters. -/
def extractLoop (keep : Str → Bool) (cap : Nat) : List Str → Str → Str
  | [], acc => acc
  | p :: rest, acc =>
    let acc' := if keep p then acc ++ p ++ ['\n'] else acc
    if cap < acc'.length then acc' else extractLoop keep cap rest acc'

/-- One extraction strategy: run the page loop over at most `maxPages`
pages, and succeed only when the stripped text exceeds 100 characters,
returning the cleaned and stripped text. -/
def strategyResult (pages : List Str) (maxPages cap : Nat) (keep : Str → Bool) :
    Option Str :=
  if 100 < (pyStrip (extractLoop keep cap (pages.take maxPages) [])).length
  then some (pyStrip (clean_text (extractLoop keep cap (pages.take maxPages) [])))
  else none

/-- Per-strategy oracles for `extract_text_from_pdf_enhanced`: the page
texts each PDF library would extract from the downloaded bytes (`none`
when the library raises before producing pages; a page whose individual
extraction raises behaves exactly like an empty page, so it is modelled
as one). -/
structure ExtractOracles where
  pypdf2 : Option (List Str)
  pymupdf : Option (List Str)
  lastResort : Option (List Str)

/-- Attempt 1 (app.py lines 140-175): PyPDF2 over at most 200 pages,
content capped at 100000 characters. -/
def pypdf2Extract (o : ExtractOracles) : Option Str :=
  o.pypdf2.bind fun pages => strategyResult pages 200 100000 keepPage

/-- Attempt 2 (app.py lines 177-214): PyMuPDF fallback, same caps. -/
def pymupdfExtract (o : ExtractOracles) : Option Str :=
  o.pymupdf.bind fun pages => strategyResult pages 200 100000 keepPage

/-- Attempt 3 (app.py lines 216-245): partial extraction over a byte
prefix, at most 50 pages, 50000-character cap, keeping any non-empty
page; only attempted when the document exceeds 1000 bytes. -/
def lastResortExtract (o : ExtractOracles) (pdfLen : Nat) : Option Str :=
  if 1000 < pdfLen then
    o.lastResort.bind fun pages => strategyResult pages 50 50000 keepAny
  else none

/-- The sentinel returned when every strategy fails (app.py line 249). -/
def errorSentinel : Str :=
  ("ERROR: Unable to extract text from this PDF document. The document may be corrupted, password-protected, or in an unsupported format. Please try with a different document.").data

/-- `extract_text_from_pdf_enhanced` (app.py lines 136-253): try the
strategies in order and fall back to the error sentinel. -/
def extract_text_from_pdf_enhanced (o : ExtractOracles) (pdfLen : Nat) : Str :=
  match pypdf2Extract o with
  | some t => t
  | none =>
    match pymupdfExtract o with
    | some t => t
    | none =>
      match lastResortExtract o pdfLen with
      | some t => t
      | none => errorSentinel

end App

/-! ### Claim C7: page and character caps of text extraction -/

/-- A list can be mapped to itself when the function fixes its members. -/
theorem map_eq_self_of {f : Char → Char} :
    ∀ (l : Str), (∀ c ∈ l, f c = c) → l.map f = l := by
  intro l h
  induction l with
  | nil => rfl
  | cons c rest ih =>
    rw [List.map_cons, h c (List.mem_cons_self c rest),
      ih fun x hx => h x (List.mem_cons_of_mem c hx)]

/-- Reversing a run of `'a'` followed by one character `w`. -/
theorem rev_block (w : Char) (p : Nat) :
    (List.replicate p 'a' ++ [w]).reverse = w :: List.replicate p 'a' := by
  rw [List.reverse_append, List.reverse_replicate,
    show ([w] : Str).reverse = [w] from rfl, List.singleton_append]

/-- `pyStrip` of two `'a'`-runs each followed by one whitespace
character `w`: the leading text is untouched and exactly the final `w`
is stripped. -/
theorem pyStrip_two_blocks (n m : Nat) (hn : 0 < n) (hm : 0 < m) (w : Char)
    (hw : pyIsSpace w = true) :
    pyStrip ((List.replicate n 'a' ++ [w]) ++ (List.replicate m 'a' ++ [w]))
      = (List.replicate n 'a' ++ [w]) ++ List.replicate m 'a' := by
  obtain ⟨k, rfl⟩ : ∃ k, n = k + 1 := ⟨n - 1, by omega⟩
  obtain ⟨j, rfl⟩ : ∃ j, m = j + 1 := ⟨m - 1, by omega⟩
  unfold pyStrip
  have hfront :
      ((List.replicate (k + 1) 'a' ++ [w]) ++ (List.replicate (j + 1) 'a' ++ [w])).dropWhile
          pyIsSpace
        = (List.replicate (k + 1) 'a' ++ [w]) ++ (List.replicate (j + 1) 'a' ++ [w]) := by
    rw [List.replicate_succ 'a' k, List.cons_append, List.cons_append]
    exact List.dropWhile_cons_of_neg (by decide)
  rw [hfront, List.reverse_append, rev_block, rev_block, List.cons_append,
    List.dropWhile_cons_of_pos hw, List.replicate_succ 'a' j, List.cons_append,
    List.dropWhile_cons_of_neg (by decide), ← List.cons_append,
    ← List.replicate_succ 'a' j, List.reverse_append, List.reverse_cons,
    List.reverse_replicate, List.reverse_replicate]

/-- Step equation of `extractLoop` on a non-empty page list. -/
theorem extractLoop_cons (keep : Str → Bool) (cap : Nat) (p : Str) (rest : List Str)
    (acc : Str) :
    App.extractLoop keep cap (p :: rest) acc
      = (if cap < (if keep p then acc ++ p ++ ['\n'] else acc).length
         then (if keep p then acc ++ p ++ ['\n'] else acc)
         else App.extractLoop keep cap rest (if keep p then acc ++ p ++ ['\n'] else acc)) :=
  rfl

/-- `extractLoop` keeps accumulating while the cap is not yet exceeded. -/
theorem extractLoop_cons_continue (keep : Str → Bool) (cap : Nat) (p : Str)
    (rest : List Str) (acc : Str) (hk : keep p = true)
    (hle : (acc ++ p ++ ['\n']).length ≤ cap) :
    App.extractLoop keep cap (p :: rest) acc
      = App.extractLoop keep cap rest (acc ++ p ++ ['\n']) := by
  rw [extractLoop_cons]
  simp only [hk, eq_self_iff_true, if_true]
  rw [if_neg (not_lt.mpr hle)]

/-- `extractLoop` stops right after the page that exceeds the cap. -/
theorem extractLoop_cons_stop (keep : Str → Bool) (cap : Nat) (p : Str)
    (rest : List Str) (acc : Str) (hk : keep p = true)
    (hgt : cap < (acc ++ p ++ ['\n']).length) :
    App.extractLoop keep cap (p :: rest) acc = acc ++ p ++ ['\n'] := by
  rw [extractLoop_cons]
  simp only [hk, eq_self_iff_true, if_true]
  rw [if_pos hgt]

/-- Step equation of `squeezeSpaces` when the leading pair is not two
spaces. -/
theorem squeezeSpaces_cons_cons (a b : Char) (l : Str) (h : ¬(a = ' ' ∧ b = ' ')) :
    App.squeezeSpaces (a :: b :: l) = a :: App.squeezeSpaces (b :: l) := by
  show (if a = ' ' ∧ b = ' ' then App.squeezeSpaces (b :: l)
        else a :: App.squeezeSpaces (b :: l)) = a :: App.squeezeSpaces (b :: l)
  rw [if_neg h]

/-- `squeezeSpaces` passes over a run of `'a'`. -/
theorem squeezeSpaces_rep (n : Nat) (r : Str) :
    App.squeezeSpaces (List.replicate n 'a' ++ r)
      = List.replicate n 'a' ++ App.squeezeSpaces r := by
  induction n with
  | zero => rfl
  | succ k ih =>
    cases hr : List.replicate k 'a' ++ r with
    | nil =>
      obtain ⟨hk0, hr0⟩ := List.append_eq_nil.mp hr
      have hk : k = 0 := by
        have h2 := congrArg List.length hk0
        rw [List.length_replicate] at h2
        simpa using h2
      subst hk
      subst hr0
      rfl
    | cons x xs =>
      rw [List.replicate_succ 'a' k, List.cons_append, hr,
        squeezeSpaces_cons_cons 'a' x xs (fun hc => absurd hc.1 (by decide)), ← hr, ih,
        ← List.cons_append, ← List.replicate_succ 'a' k]

/-- `squeezeSpaces` is the identity on two `'a'`-runs each followed by
one space: no two spaces are adjacent. -/
theorem squeezeSpaces_blocks (n m : Nat) (hm : 0 < m) :
    App.squeezeSpaces ((List.replicate n 'a' ++ [' ']) ++ (List.replicate m 'a' ++ [' ']))
      = (List.replicate n 'a' ++ [' ']) ++ (List.replicate m 'a' ++ [' ']) := by
  obtain ⟨j, rfl⟩ : ∃ j, m = j + 1 := ⟨m - 1, by omega⟩
  rw [List.append_assoc, List.singleton_append, squeezeSpaces_rep]
  rw [List.replicate_succ 'a' j, List.cons_append]
  rw [squeezeSpaces_cons_cons ' ' 'a' _ (fun hc => absurd hc.2 (by decide))]
  rw [show ('a' :: (List.replicate j 'a' ++ [' '])) = List.replicate (j + 1) 'a' ++ [' '] by
    rw [List.replicate_succ 'a' j, List.cons_append]]
  rw [squeezeSpaces_rep]
  rfl

/-- `subNumLinesGo` is the identity on newline-free text. -/
theorem subNumLinesGo_no_nl :
    ∀ (fuel : Nat) (l : Str), (∀ c ∈ l, c ≠ '\n') → App.subNumLinesGo fuel l = l := by
  intro fuel
  induction fuel with
  | zero => intro l _; cases l <;> rfl
  | succ f ih =>
    intro l h
    cases l with
    | nil => rfl
    | cons c rest =>
      show (if c = '\n' then _ else c :: App.subNumLinesGo f rest) = c :: rest
      rw [if_neg (h c (List.mem_cons_self c rest))]
      rw [ih rest fun x hx => h x (List.mem_cons_of_mem c hx)]

/-- `subNumLines` is the identity on newline-free text. -/
theorem subNumLines_no_nl (l : Str) (h : ∀ c ∈ l, c ≠ '\n') : App.subNumLines l = l :=
  subNumLinesGo_no_nl l.length l h

/-- Characters of the space-separated double block. -/
theorem blocks_chars (n m : Nat) (c : Char)
    (hc : c ∈ (List.replicate n 'a' ++ [' ']) ++ (List.replicate m 'a' ++ [' '])) :
    c = 'a' ∨ c = ' ' := by
  simp only [List.mem_append, List.mem_replicate, List.mem_singleton] at hc
  rcases hc with (⟨_, h⟩ | h) | (⟨_, h⟩ | h)
  · exact Or.inl h
  · exact Or.inr h
  · exact Or.inl h
  · exact Or.inr h

/-- Claim C7, counterexample: the 100000-character cap is checked only
after a page is appended, so two 60000-character pages yield 120001
extracted characters — the total is not capped at 100000. -/
theorem C7_counterexample :
    App.extract_text_from_pdf_enhanced
        ⟨some [List.replicate 60000 'a', List.replicate 60000 'a'], none, none⟩ 2000
      = (List.replicate 60000 'a' ++ [' ']) ++ List.replicate 60000 'a'
    ∧ 100000 <
        (App.extract_text_from_pdf_enhanced
            ⟨some [List.replicate 60000 'a', List.replicate 60000 'a'], none, none⟩
            2000).length := by
  have hAne : List.replicate 60000 'a' ≠ ([] : Str) := by
    rw [show (60000 : Nat) = 59999 + 1 from rfl]
    exact List.replicate_succ_ne_nil 59999 'a'
  have hkeep : App.keepPage (List.replicate 60000 'a') = true := by
    unfold App.keepPage
    rw [pyStrip_replicate_a, List.length_replicate, decide_eq_true hAne,
      decide_eq_true (show (10 : Nat) < 60000 by omega)]
    rfl
  have hloop : App.extractLoop App.keepPage 100000
      [List.replicate 60000 'a', List.replicate 60000 'a'] []
      = (List.replicate 60000 'a' ++ ['\n']) ++ (List.replicate 60000 'a' ++ ['\n']) := by
    rw [extractLoop_cons_continue _ _ _ _ _ hkeep
        (by rw [List.length_append, List.length_append, List.length_replicate,
              List.length_cons, List.length_nil]
            omega),
      extractLoop_cons_stop _ _ _ _ _ hkeep
        (by rw [List.length_append, List.length_append, List.length_append,
              List.length_append, List.length_replicate, List.length_cons,
              List.length_nil]
            omega)]
    rw [List.nil_append, List.append_assoc]
  have hguard : 100 <
      (pyStrip ((List.replicate 60000 'a' ++ ['\n'])
        ++ (List.replicate 60000 'a' ++ ['\n']))).length := by
    rw [pyStrip_two_blocks 60000 60000 (by omega) (by omega) '\n' (by decide)]
    rw [List.length_append, List.length_append, List.length_replicate, List.length_cons,
      List.length_nil]
    omega
  have hws : App.wsToSpace ((List.replicate 60000 'a' ++ ['\n'])
        ++ (List.replicate 60000 'a' ++ ['\n']))
      = (List.replicate 60000 'a' ++ [' ']) ++ (List.replicate 60000 'a' ++ [' ']) := by
    unfold App.wsToSpace
    rw [List.map_append, List.map_append, List.map_replicate]
    rfl
  have hchars := blocks_chars 60000 60000
  have hclean : App.clean_text ((List.replicate 60000 'a' ++ ['\n'])
        ++ (List.replicate 60000 'a' ++ ['\n']))
      = (List.replicate 60000 'a' ++ [' ']) ++ (List.replicate 60000 'a' ++ [' ']) := by
    unfold App.clean_text App.collapseWs
    rw [hws, squeezeSpaces_blocks 60000 60000 (by omega)]
    rw [subNumLines_no_nl _ (fun c hc => by
      rcases hchars c hc with h | h <;> (rw [h]; decide))]
    unfold App.ffToNl
    exact map_eq_self_of _ (fun c hc => by
      rcases hchars c hc with h | h <;> (rw [h]; rfl))
  have hstrip2 : pyStrip ((List.replicate 60000 'a' ++ [' '])
        ++ (List.replicate 60000 'a' ++ [' ']))
      = (List.replicate 60000 'a' ++ [' ']) ++ List.replicate 60000 'a' :=
    pyStrip_two_blocks 60000 60000 (by omega) (by omega) ' ' (by decide)
  have hstrat : App.strategyResult [List.replicate 60000 'a', List.replicate 60000 'a']
      200 100000 App.keepPage
      = some ((List.replicate 60000 'a' ++ [' ']) ++ List.replicate 60000 'a') := by
    unfold App.strategyResult
    rw [List.take_of_length_le
      (by rw [List.length_cons, List.length_cons, List.length_nil]; omega)]
    rw [hloop, if_pos hguard, hclean, hstrip2]
  have hpy : App.pypdf2Extract
      ⟨some [List.replicate 60000 'a', List.replicate 60000 'a'], none, none⟩
      = some ((List.replicate 60000 'a' ++ [' ']) ++ List.replicate 60000 'a') := by
    rw [App.pypdf2Extract]
    rw [show ((⟨some [List.replicate 60000 'a', List.replicate 60000 'a'], none, none⟩ :
          App.ExtractOracles).pypdf2)
        = some [List.replicate 60000 'a', List.replicate 60000 'a'] from rfl]
    rw [Option.some_bind, hstrat]
  have hres : App.extract_text_from_pdf_enhanced
      ⟨some [List.replicate 60000 'a', List.replicate 60000 'a'], none, none⟩ 2000
      = (List.replicate 60000 'a' ++ [' ']) ++ List.replicate 60000 'a' := by
    rw [App.extract_text_from_pdf_enhanced, hpy]
  refine ⟨hres, ?_⟩
  rw [hres]
  rw [List.length_append, List.length_append, List.length_replicate, List.length_cons,
    List.length_nil]
  omega

/-- `squeezeSpaces` never lengthens the text. -/
theorem squeezeSpaces_length_le (l : Str) : (App.squeezeSpaces l).length ≤ l.length := by
  have H : ∀ (n : Nat) (l : Str), l.length ≤ n →
      (App.squeezeSpaces l).length ≤ l.length := by
    intro n
    induction n with
    | zero =>
      intro l hl
      have : l = [] := List.eq_nil_of_length_eq_zero (Nat.le_zero.mp hl)
      subst this
      exact Nat.le.refl
    | succ k ih =>
      intro l hl
      match l with
      | [] => exact Nat.le.refl
      | [c] => exact Nat.le.refl
      | a :: b :: rest =>
        by_cases hab : a = ' ' ∧ b = ' '
        · rw [show App.squeezeSpaces (a :: b :: rest)
              = (if a = ' ' ∧ b = ' ' then App.squeezeSpaces (b :: rest)
                 else a :: App.squeezeSpaces (b :: rest)) from rfl, if_pos hab]
          have hr := ih (b :: rest) (by simp only [List.length_cons] at hl ⊢; omega)
          simp only [List.length_cons] at hr ⊢
          omega
        · rw [squeezeSpaces_cons_cons a b rest hab]
          have hr := ih (b :: rest) (by simp only [List.length_cons] at hl ⊢; omega)
          simp only [List.length_cons] at hr ⊢
          omega
  exact H l.length l Nat.le.refl

/-- A successful `digitsNl` match consumes at least two characters. -/
theorem digitsNl_length (rest r : Str) (h : App.digitsNl rest = some r) :
    r.length + 2 ≤ rest.length := by
  cases rest with
  | nil => exact Option.noConfusion h
  | cons c rest' =>
    rw [show App.digitsNl (c :: rest')
        = (if c.isDigit then
             match rest'.dropWhile Char.isDigit with
             | d :: r => if d = '\n' then some r else none
             | [] => none
           else none) from rfl] at h
    by_cases hd : c.isDigit
    · rw [if_pos hd] at h
      cases hdw : rest'.dropWhile Char.isDigit with
      | nil => rw [hdw] at h; exact Option.noConfusion h
      | cons d ds =>
        rw [hdw] at h
        change (if d = '\n' then some ds else none) = some r at h
        by_cases hnl : d = '\n'
        · rw [if_pos hnl] at h
          injection h with h
          subst h
          have hle : (d :: ds).length ≤ rest'.length := by
            rw [← hdw]
            exact (List.dropWhile_sublist _).length_le
          simp only [List.length_cons] at hle ⊢
          omega
        · rw [if_neg hnl] at h
          exact Option.noConfusion h
    · rw [if_neg hd] at h
      exact Option.noConfusion h

/-- `subNumLinesGo` never lengthens the text. -/
theorem subNumLinesGo_length_le :
    ∀ (fuel : Nat) (l : Str), (App.subNumLinesGo fuel l).length ≤ l.length := by
  intro fuel
  induction fuel with
  | zero => intro l; cases l <;> exact Nat.le.refl
  | succ f ih =>
    intro l
    cases l with
    | nil => exact Nat.le.refl
    | cons c rest =>
      show (if c = '\n' then
              (match App.digitsNl rest with
               | some r => '\n' :: App.subNumLinesGo f r
               | none => '\n' :: App.subNumLinesGo f rest)
            else c :: App.subNumLinesGo f rest).length ≤ (c :: rest).length
      by_cases hc : c = '\n'
      · rw [if_pos hc]
        cases hd : App.digitsNl rest with
        | none =>
          show ('\n' :: App.subNumLinesGo f rest).length ≤ _
          simp only [List.length_cons]
          exact Nat.succ_le_succ (ih rest)
        | some r =>
          show ('\n' :: App.subNumLinesGo f r).length ≤ _
          have h2 := digitsNl_length rest r hd
          have h3 := ih r
          simp only [List.length_cons]
          omega
      · rw [if_neg hc]
        simp only [List.length_cons]
        exact Nat.succ_le_succ (ih rest)

/-- `clean_text` never lengthens the text. -/
theorem clean_text_length_le (l : Str) : (App.clean_text l).length ≤ l.length := by
  have h1 : (App.wsToSpace l).length = l.length := List.length_map l _
  have h2 : (App.collapseWs l).length ≤ l.length := by
    unfold App.collapseWs
    exact le_trans (squeezeSpaces_length_le _) (le_of_eq h1)
  have h3 : (App.subNumLines (App.collapseWs l)).length ≤ l.length :=
    le_trans (subNumLinesGo_length_le _ _) h2
  unfold App.clean_text App.ffToNl
  rw [List.length_map]
  exact h3

/-- The accumulation loop exceeds the cap by at most one page plus its
trailing newline. -/
theorem extractLoop_length_le (keep : Str → Bool) (cap P : Nat) :
    ∀ (pages : List Str) (acc : Str), (∀ p ∈ pages, p.length ≤ P) → acc.length ≤ cap →
      (App.extractLoop keep cap pages acc).length ≤ cap + P + 1 := by
  intro pages
  induction pages with
  | nil =>
    intro acc _ hacc
    exact le_trans hacc (by omega)
  | cons p rest ih =>
    intro acc hP hacc
    rw [extractLoop_cons]
    by_cases hk : keep p = true
    · simp only [hk, eq_self_iff_true, if_true]
      have hlen : (acc ++ p ++ ['\n']).length ≤ cap + P + 1 := by
        have hp := hP p (List.mem_cons_self p rest)
        simp only [List.length_append, List.length_cons, List.length_nil]
        omega
      by_cases hgt : cap < (acc ++ p ++ ['\n']).length
      · rw [if_pos hgt]
        exact hlen
      · rw [if_neg hgt]
        exact ih _ (fun q hq => hP q (List.mem_cons_of_mem p hq)) (not_lt.mp hgt)
    · have hk' : keep p = false := by
        cases hkk : keep p
        · rfl
        · exact absurd hkk hk
      rw [hk']
      rw [if_neg Bool.false_ne_true, if_neg (not_lt.mpr hacc)]
      exact ih _ (fun q hq => hP q (List.mem_cons_of_mem p hq)) hacc

/-- A successful strategy result is bounded by its cap plus one page. -/
theorem strategyResult_length_le (pages : List Str) (maxPages cap P : Nat)
    (keep : Str → Bool) (hP : ∀ p ∈ pages, p.length ≤ P) :
    ∀ t, App.strategyResult pages maxPages cap keep = some t → t.length ≤ cap + P + 1 := by
  intro t ht
  unfold App.strategyResult at ht
  by_cases hg : 100 <
      (pyStrip (App.extractLoop keep cap (pages.take maxPages) [])).length
  · rw [if_pos hg] at ht
    injection ht with ht
    subst ht
    refine le_trans (pyStrip_length_le _) (le_trans (clean_text_length_le _) ?_)
    exact extractLoop_length_le keep cap P (pages.take maxPages) []
      (fun p hp => hP p (List.mem_of_mem_take hp)) (Nat.zero_le cap)
  · rw [if_neg hg] at ht
    exact Option.noConfusion ht

set_option maxRecDepth 8192 in
/-- Claim C7 (amended): extraction looks only at the first 200 pages,
and the accumulated text stops growing at the first page that pushes it
beyond 100000 characters — so the result can exceed 100000 by up to one
page plus a newline (it is not hard-capped at 100000): with every page
at most `P` characters the extracted text has at most `100000 + P + 1`
characters. -/
theorem C7_amended :
    (∀ (pages : List Str) (maxPages cap : Nat) (keep : Str → Bool),
        App.strategyResult pages maxPages cap keep
          = App.strategyResult (pages.take maxPages) maxPages cap keep)
    ∧ (∀ (o : App.ExtractOracles) (pdfLen P : Nat),
        (∀ ps, o.pypdf2 = some ps → ∀ p ∈ ps, p.length ≤ P) →
        (∀ ps, o.pymupdf = some ps → ∀ p ∈ ps, p.length ≤ P) →
        (∀ ps, o.lastResort = some ps → ∀ p ∈ ps, p.length ≤ P) →
        (App.extract_text_from_pdf_enhanced o pdfLen).length ≤ 100000 + P + 1) := by
  constructor
  · intro pages maxPages cap keep
    unfold App.strategyResult
    rw [List.take_take, min_self]
  · intro o pdfLen P h1 h2 h3
    have hsent : App.errorSentinel.length ≤ 100000 + P + 1 := by
      have h200 : App.errorSentinel.length ≤ 200 := by decide
      omega
    have hstrat1 : ∀ t, App.pypdf2Extract o = some t → t.length ≤ 100000 + P + 1 := by
      intro t ht
      rw [App.pypdf2Extract] at ht
      cases hp : o.pypdf2 with
      | none => rw [hp] at ht; exact Option.noConfusion ht
      | some ps =>
        rw [hp, Option.some_bind] at ht
        exact strategyResult_length_le ps 200 100000 P App.keepPage (h1 ps hp) t ht
    have hstrat2 : ∀ t, App.pymupdfExtract o = some t → t.length ≤ 100000 + P + 1 := by
      intro t ht
      rw [App.pymupdfExtract] at ht
      cases hp : o.pymupdf with
      | none => rw [hp] at ht; exact Option.noConfusion ht
      | some ps =>
        rw [hp, Option.some_bind] at ht
        exact strategyResult_length_le ps 200 100000 P App.keepPage (h2 ps hp) t ht
    have hstrat3 : ∀ t, App.lastResortExtract o pdfLen = some t →
        t.length ≤ 100000 + P + 1 := by
      intro t ht
      rw [App.lastResortExtract] at ht
      by_cases hlen : 1000 < pdfLen
      · rw [if_pos hlen] at ht
        cases hp : o.lastResort with
        | none => rw [hp] at ht; exact Option.noConfusion ht
        | some ps =>
          rw [hp, Option.some_bind] at ht
          have hb := strategyResult_length_le ps 50 50000 P App.keepAny (h3 ps hp) t ht
          omega
      · rw [if_neg hlen] at ht
        exact Option.noConfusion ht
    cases ho1 : App.pypdf2Extract o with
    | some t =>
      have hr : App.extract_text_from_pdf_enhanced o pdfLen = t := by
        rw [App.extract_text_from_pdf_enhanced, ho1]
      rw [hr]
      exact hstrat1 t ho1
    | none =>
      cases ho2 : App.pymupdfExtract o with
      | some t =>
        have hr : App.extract_text_from_pdf_enhanced o pdfLen = t := by
          rw [App.extract_text_from_pdf_enhanced, ho1, ho2]
        rw [hr]
        exact hstrat2 t ho2
      | none =>
        cases ho3 : App.lastResortExtract o pdfLen with
        | some t =>
          have hr : App.extract_text_from_pdf_enhanced o pdfLen = t := by
            rw [App.extract_text_from_pdf_enhanced, ho1, ho2, ho3]
          rw [hr]
          exact hstrat3 t ho3
        | none =>
          have hr : App.extract_text_from_pdf_enhanced o pdfLen = App.errorSentinel := by
            rw [App.extract_text_from_pdf_enhanced, ho1, ho2, ho3]
          rw [hr]
          exact hsent

theorem C7_amended_witness :
    (App.extract_text_from_pdf_enhanced ⟨none, none, none⟩ 0).length ≤ 100000 + 0 + 1 :=
  C7_amended.2 ⟨none, none, none⟩ 0 0
    (fun ps h => Option.noConfusion h)
    (fun ps h => Option.noConfusion h)
    (fun ps h => Option.noConfusion h)

namespace App

/-! ### Confidence scoring (`calculate_confidence_score`) -/

/-- Python regex class `\w` restricted to ASCII. -/
def isWordChar (c : Char) : Bool :=
  c.isAlphanum || c = '_'

/-- `re.findall(r'\b\w+\b', text)`: the maximal runs of word characters. -/
def pyWords : Str → List Str
  | [] => []
  | c :: rest =>
    if isWordChar c then
      match rest with
      | r :: _ =>
        if isWordChar r then
          match pyWords rest with
          | w :: t => (c :: w) :: t
          | [] => [[c]]
        else [c] :: pyWords rest
      | [] => [[c]]
    else pyWords rest

/-- The `specific_indicators` list of app.py line 445; the first entry
is the three-character mojibake rendering of the rupee sign found in the
source bytes. -/
def specific_indicators : List Str :=
  [("‚Çπ").data, ("%").data, ("section").data, ("article").data,
   ("clause").data, ("specifically").data, ("mentioned").data]

/-- The context-utilization phrases of app.py line 456. -/
def context_phrases : List Str :=
  [("according to").data, ("document states").data, ("mentioned").data,
   ("specified").data]

/-- `calculate_confidence_score` (app.py lines 433-459), with Python
floats modelled as exact rationals. -/
def calculate_confidence_score (answer question context : Str) : ℚ :=
  if answer = [] ∨ answer.length < 20 then 0
  else
    min
      ((if 50 < answer.length then 2/10 else 0)
        + min (((specific_indicators.filter fun ind =>
              isSubstr (pyLower ind) (pyLower answer)).length : ℚ) / 5) (3/10)
        + min ((((pyWords (pyLower question)).dedup.filter fun w =>
                w ∈ (pyWords (pyLower answer)).dedup).length : ℚ)
              / (((pyWords (pyLower question)).dedup.length : ℚ))) (3/10)
        + (if context ≠ [] ∧ context_phrases.any (fun p => isSubstr p (pyLower answer))
           then 2/10 else 0))
      1

end App

/-! ### Claim C10: confidence score bounds -/

/-- Claim C10: for an answer of fewer than 20 characters the confidence
score is exactly 0; for an answer of at least 20 characters and a
question containing at least one word character, the score lies in
[0, 1]. -/
theorem C10_confidence_bounds (answer question context : Str) :
    (answer.length < 20 → App.calculate_confidence_score answer question context = 0)
    ∧ (20 ≤ answer.length → (∃ c ∈ question, App.isWordChar c = true) →
        0 ≤ App.calculate_confidence_score answer question context
        ∧ App.calculate_confidence_score answer question context ≤ 1) := by
  constructor
  · intro hshort
    unfold App.calculate_confidence_score
    rw [if_pos (Or.inr hshort)]
  · intro hlong _
    have hcond : ¬(answer = [] ∨ answer.length < 20) := by
      rintro (rfl | hlt)
      · simp at hlong
      · omega
    unfold App.calculate_confidence_score
    rw [if_neg hcond]
    constructor
    · refine le_min ?_ zero_le_one
      have h1 : (0 : ℚ) ≤ (if 50 < answer.length then 2/10 else 0) := by
        split
        · norm_num
        · exact le_refl 0
      have h2 : (0 : ℚ) ≤ min (((App.specific_indicators.filter fun ind =>
            isSubstr (pyLower ind) (pyLower answer)).length : ℚ) / 5) (3/10) := by
        refine le_min ?_ (by norm_num)
        positivity
      have h3 : (0 : ℚ) ≤ min ((((App.pyWords (pyLower question)).dedup.filter fun w =>
              w ∈ (App.pyWords (pyLower answer)).dedup).length : ℚ)
            / (((App.pyWords (pyLower question)).dedup.length : ℚ))) (3/10) := by
        refine le_min ?_ (by norm_num)
        positivity
      have h4 : (0 : ℚ) ≤ (if context ≠ [] ∧
          App.context_phrases.any (fun p => isSubstr p (pyLower answer))
          then 2/10 else 0) := by
        split
        · norm_num
        · exact le_refl 0
      exact add_nonneg (add_nonneg (add_nonneg h1 h2) h3) h4
    · exact min_le_right _ 1

/-- Witness for `C10_confidence_bounds` at concrete strings. -/
theorem C10_confidence_bounds_witness :
    0 ≤ App.calculate_confidence_score
        (("This policy covers hospitalization.").data) (("what is covered").data)
        (("ctx").data)
    ∧ App.calculate_confidence_score
        (("This policy covers hospitalization.").data) (("what is covered").data)
        (("ctx").data) ≤ 1 :=
  (C10_confidence_bounds (("This policy covers hospitalization.").data)
      (("what is covered").data) (("ctx").data)).2
    (by decide) ⟨'w', by decide⟩

namespace App

/-! ### Document download (`download_pdf_with_retry`) -/

/-- One HTTP attempt as seen by `download_pdf_with_retry`: either the
request raises (timeout, connection failure, or a non-2xx status turned
into an exception by `raise_for_status`), or it succeeds and streams a
list of byte chunks. -/
inductive Attempt where
  | netError : Attempt
  | ok (chunks : List (List Nat)) : Attempt

/-- 200 MB, the streaming size ceiling of app.py line 97. -/
def maxDownloadSize : Nat := 200 * 1024 * 1024

/-- The streaming receive loop (app.py lines 95-111): append each
non-empty chunk, stopping right after the first chunk that pushes the
downloaded size beyond `maxSize`. -/
def recvLoop (maxSize : Nat) : List (List Nat) → List Nat → List Nat
  | [], acc => acc
  | c :: rest, acc =>
    if c = [] then recvLoop maxSize rest acc
    else if maxSize < (acc ++ c).length then acc ++ c
    else recvLoop maxSize rest (acc ++ c)

/-- Outcome of one attempt (app.py lines 82-124): a network failure or
a downloaded body smaller than 1000 bytes makes the attempt fail. -/
def attemptResult (a : Attempt) : Option (List Nat) :=
  match a with
  | .netError => none
  | .ok chunks =>
    if (recvLoop maxDownloadSize chunks []).length < 1000 then none
    else some (recvLoop maxDownloadSize chunks [])

/-- Retry loop of `download_pdf_with_retry` (app.py lines 79-134): try
up to `remaining` more attempts starting at attempt number `idx`;
returns the result together with the backoff waits (`3 ** attempt`
seconds) performed between attempts. -/
def dlGo (attempts : Nat → Attempt) : Nat → Nat → Except Unit (List Nat) × List Nat
  | 0, _ => (.error (), [])
  | r + 1, i =>
    match attemptResult (attempts i) with
    | some content => (.ok content, [])
    | none =>
      if r = 0 then (.error (), [])
      else ((dlGo attempts r (i + 1)).1, 3 ^ i :: (dlGo attempts r (i + 1)).2)

/-- `download_pdf_with_retry` (app.py lines 79-134); `max_retries`
defaults to 3 in the source and every caller uses the default. -/
def download_pdf_with_retry (attempts : Nat → Attempt) (maxRetries : Nat) :
    Except Unit (List Nat) × List Nat :=
  dlGo attempts maxRetries 0

/-- The number of leading failed attempts, capped at 2: exactly the
attempts after which the source sleeps. -/
def failStreak (attempts : Nat → Attempt) : Nat :=
  if attemptResult (attempts 0) = none then
    (if attemptResult (attempts 1) = none then 2 else 1)
  else 0

end App

namespace PDFProc

/-- `PDFProcessor.download_pdf` (pdf_processor.py lines 20-28): a single
`requests.get` with no retry loop — only attempt 0 is ever made, its
failure (network error or non-2xx via `raise_for_status`) raises
immediately, and a successful response's entire body is returned with
no size ceiling and no minimum-size check. -/
def download_pdf (attempts : Nat → App.Attempt) : Except Unit (List Nat) :=
  match attempts 0 with
  | .netError => .error ()
  | .ok chunks => .ok chunks.flatten

end PDFProc

/-! ### Claim C3: download retry, backoff and truncation -/

/-- Step equation of the retry loop. -/
theorem dlGo_succ (attempts : Nat → App.Attempt) (r i : Nat) :
    App.dlGo attempts (r + 1) i
      = (match App.attemptResult (attempts i) with
         | some content => (Except.ok content, [])
         | none =>
           if r = 0 then (Except.error (), [])
           else ((App.dlGo attempts r (i + 1)).1,
                 3 ^ i :: (App.dlGo attempts r (i + 1)).2)) := rfl

/-- A successful attempt yields at least 1000 bytes. -/
theorem attemptResult_length (a : App.Attempt) (c : List Nat)
    (h : App.attemptResult a = some c) : 1000 ≤ c.length := by
  cases a with
  | netError => exact Option.noConfusion h
  | ok chunks =>
    rw [show App.attemptResult (App.Attempt.ok chunks)
        = (if (App.recvLoop App.maxDownloadSize chunks []).length < 1000 then none
           else some (App.recvLoop App.maxDownloadSize chunks [])) from rfl] at h
    by_cases hlt : (App.recvLoop App.maxDownloadSize chunks []).length < 1000
    · rw [if_pos hlt] at h
      exact Option.noConfusion h
    · rw [if_neg hlt] at h
      injection h with h
      subst h
      omega

/-- The receive loop returns the concatenation of a prefix of the chunk
stream, and it returns the whole stream unless the size ceiling was
exceeded. -/
theorem recvLoop_spec (maxSize : Nat) :
    ∀ (chunks : List (List Nat)) (acc : List Nat), ∃ k,
      App.recvLoop maxSize chunks acc = acc ++ (chunks.take k).flatten
      ∧ (App.recvLoop maxSize chunks acc = acc ++ chunks.flatten
         ∨ maxSize < (App.recvLoop maxSize chunks acc).length) := by
  intro chunks
  induction chunks with
  | nil =>
    intro acc
    exact ⟨0, by simp [App.recvLoop], Or.inl (by simp [App.recvLoop])⟩
  | cons c rest ih =>
    intro acc
    by_cases hc : c = []
    · subst hc
      have hstep : App.recvLoop maxSize ([] :: rest) acc
          = App.recvLoop maxSize rest acc := by
        rw [show App.recvLoop maxSize ([] :: rest) acc
            = (if ([] : List Nat) = [] then App.recvLoop maxSize rest acc
               else if maxSize < (acc ++ []).length then acc ++ []
               else App.recvLoop maxSize rest (acc ++ [])) from rfl, if_pos rfl]
      obtain ⟨k, hk, hd⟩ := ih acc
      refine ⟨k + 1, ?_, ?_⟩
      · rw [hstep, hk]
        simp [List.take_succ_cons]
      · rcases hd with hd | hd
        · exact Or.inl (by rw [hstep, hd]; simp)
        · exact Or.inr (by rw [hstep]; exact hd)
    · have hstep : App.recvLoop maxSize (c :: rest) acc
          = (if maxSize < (acc ++ c).length then acc ++ c
             else App.recvLoop maxSize rest (acc ++ c)) := by
        rw [show App.recvLoop maxSize (c :: rest) acc
            = (if c = [] then App.recvLoop maxSize rest acc
               else if maxSize < (acc ++ c).length then acc ++ c
               else App.recvLoop maxSize rest (acc ++ c)) from rfl, if_neg hc]
      by_cases hbig : maxSize < (acc ++ c).length
      · refine ⟨1, ?_, Or.inr ?_⟩
        · rw [hstep, if_pos hbig]
          simp
        · rw [hstep, if_pos hbig]
          exact hbig
      · obtain ⟨k, hk, hd⟩ := ih (acc ++ c)
        refine ⟨k + 1, ?_, ?_⟩
        · rw [hstep, if_neg hbig, hk]
          simp [List.take_succ_cons]
        · rcases hd with hd | hd
          · refine Or.inl ?_
            rw [hstep, if_neg hbig, hd]
            simp
          · refine Or.inr ?_
            rw [hstep, if_neg hbig]
            exact hd

/-- Retry-loop step when the attempt succeeds. -/
theorem dlGo_some (attempts : Nat → App.Attempt) (r i : Nat) (c : List Nat)
    (h : App.attemptResult (attempts i) = some c) :
    App.dlGo attempts (r + 1) i = (Except.ok c, []) := by
  rw [dlGo_succ, h]

/-- Retry-loop step when the final attempt fails. -/
theorem dlGo_none_last (attempts : Nat → App.Attempt) (i : Nat)
    (h : App.attemptResult (attempts i) = none) :
    App.dlGo attempts 1 i = (Except.error (), []) := by
  rw [show (1 : Nat) = 0 + 1 from rfl, dlGo_succ, h]
  rfl

/-- Retry-loop step when a non-final attempt fails: wait `3 ^ i` seconds
and move on. -/
theorem dlGo_none_cont (attempts : Nat → App.Attempt) (r i : Nat)
    (h : App.attemptResult (attempts i) = none) (hr : r ≠ 0) :
    App.dlGo attempts (r + 1) i
      = ((App.dlGo attempts r (i + 1)).1, 3 ^ i :: (App.dlGo attempts r (i + 1)).2) := by
  rw [dlGo_succ, h]
  exact if_neg hr

/-- Full behaviour of the app.py retry loop with the configured 3
attempts: the download fails exactly when all three attempts fail
(non-2xx/network failure or a body under 1000 bytes); on success the
body has at least 1000 bytes and comes from one of the three attempts;
the waits between attempts are `3 ^ attempt` seconds; and the receive
loop truncates the stream — it returns a prefix of the streamed bytes,
the whole stream unless the 200 MB ceiling was crossed — instead of
failing on oversized payloads. -/
theorem download_retry_spec (attempts : Nat → App.Attempt) :
    ((App.download_pdf_with_retry attempts 3).1 = Except.error ()
      ↔ ∀ i, i < 3 → App.attemptResult (attempts i) = none)
    ∧ (∀ c, (App.download_pdf_with_retry attempts 3).1 = Except.ok c →
        1000 ≤ c.length ∧ ∃ i, i < 3 ∧ App.attemptResult (attempts i) = some c)
    ∧ ((App.download_pdf_with_retry attempts 3).2
        = (List.range (App.failStreak attempts)).map fun i => 3 ^ i)
    ∧ (∀ (chunks : List (List Nat)), ∃ k,
        App.recvLoop App.maxDownloadSize chunks [] = (chunks.take k).flatten
        ∧ (App.recvLoop App.maxDownloadSize chunks [] = chunks.flatten
           ∨ App.maxDownloadSize < (App.recvLoop App.maxDownloadSize chunks []).length)) := by
  have hrecv : ∀ (chunks : List (List Nat)), ∃ k,
      App.recvLoop App.maxDownloadSize chunks [] = (chunks.take k).flatten
      ∧ (App.recvLoop App.maxDownloadSize chunks [] = chunks.flatten
         ∨ App.maxDownloadSize < (App.recvLoop App.maxDownloadSize chunks []).length) := by
    intro chunks
    obtain ⟨k, hk, hd⟩ := recvLoop_spec App.maxDownloadSize chunks []
    rw [List.nil_append] at hk
    refine ⟨k, hk, ?_⟩
    rcases hd with hd | hd
    · rw [List.nil_append] at hd
      exact Or.inl hd
    · exact Or.inr hd
  by_cases h0 : App.attemptResult (attempts 0) = none
  · by_cases h1 : App.attemptResult (attempts 1) = none
    · by_cases h2 : App.attemptResult (attempts 2) = none
      · -- all three attempts fail
        have hD : App.download_pdf_with_retry attempts 3
            = (Except.error (), [3 ^ 0, 3 ^ 1]) := by
          unfold App.download_pdf_with_retry
          rw [show (3 : Nat) = 2 + 1 from rfl, dlGo_none_cont attempts 2 0 h0 (by omega),
            show (2 : Nat) = 1 + 1 from rfl, dlGo_none_cont attempts 1 1 h1 (by omega),
            dlGo_none_last attempts 2 h2]
        refine ⟨⟨fun _ i hi => ?_, fun _ => by rw [hD]⟩, fun c hc => ?_, ?_, hrecv⟩
        · have : i = 0 ∨ i = 1 ∨ i = 2 := by omega
          rcases this with rfl | rfl | rfl
          · exact h0
          · exact h1
          · exact h2
        · rw [hD] at hc
          exact Except.noConfusion hc
        · rw [hD, App.failStreak, if_pos h0, if_pos h1]
          rfl
      · obtain ⟨c2, hc2⟩ := Option.ne_none_iff_exists'.mp h2
        have hD : App.download_pdf_with_retry attempts 3
            = (Except.ok c2, [3 ^ 0, 3 ^ 1]) := by
          unfold App.download_pdf_with_retry
          rw [show (3 : Nat) = 2 + 1 from rfl, dlGo_none_cont attempts 2 0 h0 (by omega),
            show (2 : Nat) = 1 + 1 from rfl, dlGo_none_cont attempts 1 1 h1 (by omega),
            dlGo_some attempts 0 2 c2 hc2]
        refine ⟨⟨fun hc => ?_, fun hall => ?_⟩, fun c hc => ?_, ?_, hrecv⟩
        · rw [hD] at hc
          exact Except.noConfusion hc
        · rw [hall 2 (by omega)] at hc2
          exact Option.noConfusion hc2
        · rw [hD] at hc
          have hcc : (Except.ok c2 : Except Unit (List Nat)) = Except.ok c := hc
          injection hcc with hcc
          subst hcc
          exact ⟨attemptResult_length _ _ hc2, 2, by omega, hc2⟩
        · rw [hD, App.failStreak, if_pos h0, if_pos h1]
          rfl
    · obtain ⟨c1, hc1⟩ := Option.ne_none_iff_exists'.mp h1
      have hD : App.download_pdf_with_retry attempts 3
          = (Except.ok c1, [3 ^ 0]) := by
        unfold App.download_pdf_with_retry
        rw [show (3 : Nat) = 2 + 1 from rfl, dlGo_none_cont attempts 2 0 h0 (by omega),
          dlGo_some attempts 1 1 c1 hc1]
      refine ⟨⟨fun hc => ?_, fun hall => ?_⟩, fun c hc => ?_, ?_, hrecv⟩
      · rw [hD] at hc
        exact Except.noConfusion hc
      · rw [hall 1 (by omega)] at hc1
        exact Option.noConfusion hc1
      · rw [hD] at hc
        have hcc : (Except.ok c1 : Except Unit (List Nat)) = Except.ok c := hc
        injection hcc with hcc
        subst hcc
        exact ⟨attemptResult_length _ _ hc1, 1, by omega, hc1⟩
      · rw [hD, App.failStreak, if_pos h0, if_neg (by rw [hc1]; exact fun hh => Option.noConfusion hh)]
        rfl
  · obtain ⟨c0, hc0⟩ := Option.ne_none_iff_exists'.mp h0
    have hD : App.download_pdf_with_retry attempts 3 = (Except.ok c0, []) := by
      unfold App.download_pdf_with_retry
      rw [show (3 : Nat) = 2 + 1 from rfl, dlGo_some attempts 2 0 c0 hc0]
    refine ⟨⟨fun hc => ?_, fun hall => ?_⟩, fun c hc => ?_, ?_, hrecv⟩
    · rw [hD] at hc
      exact Except.noConfusion hc
    · rw [hall 0 (by omega)] at hc0
      exact Option.noConfusion hc0
    · rw [hD] at hc
      have hcc : (Except.ok c0 : Except Unit (List Nat)) = Except.ok c := hc
      injection hcc with hcc
      subst hcc
      exact ⟨attemptResult_length _ _ hc0, 0, by omega, hc0⟩
    · rw [hD, App.failStreak, if_neg (by rw [hc0]; exact fun hh => Option.noConfusion hh)]
      rfl

/-- Counterexample to claim C3: the `src/` pipeline's fetcher
`PDFProcessor.download_pdf` makes a single attempt — when attempt 0
fails it errors immediately, even though the very next attempt would
return a 1000-byte usable body (so not all retries were exhausted) —
and it accepts a 1-byte body that the claim says must fail. -/
theorem C3_counterexample :
    PDFProc.download_pdf
        (fun i => if i = 0 then App.Attempt.netError
                  else App.Attempt.ok [List.replicate 1000 0]) = Except.error ()
    ∧ App.attemptResult
          ((fun i => if i = 0 then App.Attempt.netError
                     else App.Attempt.ok [List.replicate 1000 0]) 1)
        = some (List.replicate 1000 0)
    ∧ PDFProc.download_pdf (fun _ => App.Attempt.ok [[37]]) = Except.ok [37] := by
  have hrecv1 : App.recvLoop App.maxDownloadSize [List.replicate 1000 0] []
      = List.replicate 1000 0 := by
    rw [App.recvLoop, if_neg (by decide : ¬ List.replicate 1000 (0 : Nat) = []),
      List.nil_append,
      if_neg (by rw [List.length_replicate]; decide), App.recvLoop]
  have hres : App.attemptResult (App.Attempt.ok [List.replicate 1000 0])
      = some (List.replicate 1000 0) := by
    rw [show App.attemptResult (App.Attempt.ok [List.replicate 1000 0])
        = (if (App.recvLoop App.maxDownloadSize [List.replicate 1000 0] []).length < 1000
           then none
           else some (App.recvLoop App.maxDownloadSize [List.replicate 1000 0] []))
      from rfl, hrecv1, List.length_replicate, if_neg (by omega)]
  exact ⟨rfl, hres, rfl⟩

/-- C3 (amended): only app.py's `download_pdf_with_retry` implements
the retry policy — up to 3 attempts failing exactly when all three
fail, success bodies of at least 1000 bytes from one of the attempts,
`3 ^ attempt`-second backoff waits, and truncation of the stream at
the 200 MB ceiling — while the `src/` pipeline's
`PDFProcessor.download_pdf` performs a single attempt: its outcome is
decided by attempt 0 alone, a failure propagating immediately and a
success returning the entire body with no truncation and no
minimum-size check. -/
theorem C3_amended (attempts : Nat → App.Attempt) :
    (((App.download_pdf_with_retry attempts 3).1 = Except.error ()
        ↔ ∀ i, i < 3 → App.attemptResult (attempts i) = none)
      ∧ (∀ c, (App.download_pdf_with_retry attempts 3).1 = Except.ok c →
          1000 ≤ c.length ∧ ∃ i, i < 3 ∧ App.attemptResult (attempts i) = some c)
      ∧ ((App.download_pdf_with_retry attempts 3).2
          = (List.range (App.failStreak attempts)).map fun i => 3 ^ i)
      ∧ (∀ (chunks : List (List Nat)), ∃ k,
          App.recvLoop App.maxDownloadSize chunks [] = (chunks.take k).flatten
          ∧ (App.recvLoop App.maxDownloadSize chunks [] = chunks.flatten
             ∨ App.maxDownloadSize
                < (App.recvLoop App.maxDownloadSize chunks []).length)))
    ∧ (attempts 0 = App.Attempt.netError →
        PDFProc.download_pdf attempts = Except.error ())
    ∧ (∀ chunks, attempts 0 = App.Attempt.ok chunks →
        PDFProc.download_pdf attempts = Except.ok chunks.flatten) :=
  ⟨download_retry_spec attempts,
   fun h => by rw [PDFProc.download_pdf.eq_def, h],
   fun chunks h => by rw [PDFProc.download_pdf.eq_def, h]⟩

/-- Witness for `C3_amended`: all attempts failing yields the download
error in app.py, and the single failed attempt yields the error in the
`src/` fetcher. -/
theorem C3_amended_witness :
    (App.download_pdf_with_retry (fun _ => App.Attempt.netError) 3).1
      = Except.error ()
    ∧ PDFProc.download_pdf (fun _ => App.Attempt.netError) = Except.error () :=
  ⟨(C3_amended (fun _ => App.Attempt.netError)).1.1.mpr (fun _ _ => rfl),
   (C3_amended (fun _ => App.Attempt.netError)).2.1 rfl⟩

namespace App

/-! ### The webhook endpoint (`webhook_test`) and its per-question loop -/

/-- Stable insertion into a list sorted by descending score: an element
goes before the first entry whose score is not larger, so entries with
equal scores keep their original order — the behaviour of Python's
stable `sort(reverse=True, key=lambda x: x[0])`. -/
def insertDesc (x : Nat × Nat × Str) : List (Nat × Nat × Str) → List (Nat × Nat × Str)
  | [] => [x]
  | y :: ys => if y.1 ≤ x.1 then x :: y :: ys else y :: insertDesc x ys

/-- Stable descending sort by score. -/
def isortDesc : List (Nat × Nat × Str) → List (Nat × Nat × Str)
  | [] => []
  | x :: xs => insertDesc x (isortDesc xs)

/-- Keyword-overlap score of one chunk (app.py lines 327-339):
distinct question words appearing as whole words of the chunk, plus a
bonus for distinct question words longer than 3 characters appearing as
substrings. -/
def chunkScore (question_words : List Str) (chunk : Str) : Nat :=
  (question_words.filter fun w => w ∈ (pyWords (pyLower chunk)).dedup).length
    + (question_words.filter fun w =>
        decide (3 < w.length) && isSubstr w (pyLower chunk)).length

/-- `find_relevant_chunks` (app.py lines 321-343). -/
def find_relevant_chunks (chunks : List Str) (question : Str) (maxChunks : Nat) :
    List Str :=
  ((isortDesc (chunks.enum.map fun p =>
      (chunkScore ((pyWords (pyLower question)).dedup) p.2, p.1, p.2))).take
    maxChunks).map fun t => t.2.2

def techErrorMsg (e : Str) : Str :=
  ("Unable to process question due to technical error: ").data ++ e

/-- `process_question_with_enhanced_gemini` (app.py lines 395-431): the
LLM call is an oracle — `Except.error e` is any exception inside the
`try` block, which the handler at line 429 turns into an error answer
with confidence 0. -/
def process_question_with_enhanced_gemini (document_text question : Str) (dt : DocType)
    (gemini : Except Str Str) : Str × ℚ :=
  match gemini with
  | .error e => (techErrorMsg e, 0)
  | .ok t =>
    (pyStrip t,
     calculate_confidence_score (pyStrip t) question
       (joinNlNl ((find_relevant_chunks
          (chunk_text_intelligently document_text dt 4000) question 5).take 3)))

/-- The response model of the endpoint (processing_time and timestamp
carry no information relevant to the claims and are omitted). -/
structure QueryResponseM where
  answers : List Str
  success : Bool
  confidence_scores : List ℚ
deriving DecidableEq

/-- The per-question loop of `webhook_test` (app.py lines 567-581). -/
def webhookLoop (gemini : Nat → Except Str Str) (document_text : Str) (dt : DocType) :
    List Str → Nat → List Str × List ℚ
  | [], _ => ([], [])
  | q :: qs, i =>
    ((process_question_with_enhanced_gemini document_text q dt (gemini i)).1
        :: (webhookLoop gemini document_text dt qs (i + 1)).1,
     (process_question_with_enhanced_gemini document_text q dt (gemini i)).2
        :: (webhookLoop gemini document_text dt qs (i + 1)).2)

def errPrefix : Str := ("ERROR:").data

def noExtractMsg : Str := ("No text could be extracted from the PDF document").data

def unableMsgP1 : Str := ("Unable to process this document: ").data

def unableMsgP2 : Str :=
  (". Please try with a different document or contact support for assistance with large/complex documents.").data

/-- Lines 539-592 of `webhook_test`: extraction, the graceful
degradation branch when no text was extracted, and the question loop. -/
def webhookBody (questions : List Str) (pdf_content : List Nat)
    (ex : ExtractOracles) (gemini : Nat → Except Str Str) :
    Except Nat QueryResponseM :=
  if extract_text_from_pdf_enhanced ex pdf_content.length = []
          ∨ List.isPrefixOf errPrefix (extract_text_from_pdf_enhanced ex pdf_content.length)
        then
        .ok ⟨List.replicate questions.length
              (unableMsgP1
                ++ (if extract_text_from_pdf_enhanced ex pdf_content.length ≠ []
                      ∧ List.isPrefixOf errPrefix
                          (extract_text_from_pdf_enhanced ex pdf_content.length)
                    then extract_text_from_pdf_enhanced ex pdf_content.length
                    else noExtractMsg)
                ++ unableMsgP2),
             false,
             List.replicate questions.length 0⟩
      else
        .ok ⟨(webhookLoop gemini (extract_text_from_pdf_enhanced ex pdf_content.length)
                (detect_document_type (extract_text_from_pdf_enhanced ex pdf_content.length))
                questions 0).1,
             true,
             (webhookLoop gemini (extract_text_from_pdf_enhanced ex pdf_content.length)
                (detect_document_type (extract_text_from_pdf_enhanced ex pdf_content.length))
                questions 0).2⟩

/-- `webhook_test` (app.py lines 503-606): validation, download, then
the body above.  `dl` is the outcome of `download_pdf_with_retry` (its
`HTTPException` propagates as a 400 error). -/
def webhook_test (questions : List Str) (dl : Except Unit (List Nat))
    (ex : ExtractOracles) (gemini : Nat → Except Str Str) :
    Except Nat QueryResponseM :=
  if questions = [] then .error 400
  else if 10 < questions.length then .error 400
  else
    match dl with
    | .error _ => .error 400
    | .ok pdf_content => webhookBody questions pdf_content ex gemini

end App

/-- Both lists produced by the webhook question loop have one entry per
question. -/
theorem webhookLoop_length (gemini : Nat → Except Str Str) (document_text : Str)
    (dt : App.DocType) :
    ∀ (qs : List Str) (i : Nat),
      (App.webhookLoop gemini document_text dt qs i).1.length = qs.length
      ∧ (App.webhookLoop gemini document_text dt qs i).2.length = qs.length := by
  intro qs
  induction qs with
  | nil => intro i; exact ⟨rfl, rfl⟩
  | cons q rest ih =>
    intro i
    constructor
    · show ((App.process_question_with_enhanced_gemini document_text q dt (gemini i)).1
          :: (App.webhookLoop gemini document_text dt rest (i + 1)).1).length = _
      rw [List.length_cons, (ih (i + 1)).1]
      rfl
    · show ((App.process_question_with_enhanced_gemini document_text q dt (gemini i)).2
          :: (App.webhookLoop gemini document_text dt rest (i + 1)).2).length = _
      rw [List.length_cons, (ih (i + 1)).2]
      rfl

namespace Core

/-!
Shallow embedding of the `src/` pipeline: `QueryRetrievalSystem`
(query_retrieval_system.py) and `LLMQueryProcessor`
(llm_query_processor.py).
-/

/-- Metadata of a stored chunk as held by the vector database: the
chunk record produced by the PDF processor minus its embedding
(vector_db_manager.py line 276). -/
structure ChunkMeta where
  chunk_id : Nat
  content : Str
  page_number : Nat
deriving DecidableEq

/-- Answer used when no relevant chunk is retrieved
(query_retrieval_system.py line 107 and llm_query_processor.py line 180). -/
def noInfoMsg : Str :=
  ("The provided document does not contain information relevant to your query.").data

def fallbackP1 : Str := ("Based on the document content <Page ").data

def fallbackP2 : Str := (">, the relevant information found is: ").data

/-- `LLMQueryProcessor._generate_fallback_answer` (llm_query_processor.py
lines 177-187): a deterministic answer built from the first retrieved
chunk — its page citation and its first 300 characters. -/
def generate_fallback_answer (query : Str) (retrieved_chunks : List ChunkMeta) : Str :=
  match retrieved_chunks with
  | [] => noInfoMsg
  | best :: _ =>
    fallbackP1 ++ (Nat.repr best.page_number).data ++ fallbackP2
      ++ best.content.take 300 ++ ("...").data

/-- `evaluate_retrieved_content` (llm_query_processor.py lines 98-146)
with the LLM call as an oracle: `some t` is a successful response whose
text is stripped and returned; `none` is an exception caught at line
143, answered by the deterministic fallback. -/
def evaluate_retrieved_content (llm : Option Str) (query : Str)
    (retrieved_chunks : List ChunkMeta) : Str :=
  match llm with
  | some t => pyStrip t
  | none => generate_fallback_answer query retrieved_chunks

/-- Per-question effect oracles of `_answer_single_question`
(query_retrieval_system.py lines 91-119): `parse_query` and
`enhance_query_for_search` never raise (they catch their own failures
and fall back internally); an exception raised while embedding the
query or searching the vector database propagates to the handler at
line 117 and is modelled by `searchExn`; `searchResult` is the scored
list returned by `search_similar_chunks`; `evalLLM` is the LLM call
inside `evaluate_retrieved_content`. -/
structure QEffects where
  searchExn : Option Str
  searchResult : List (ChunkMeta × ℚ)
  evalLLM : Option Str

def errAnswerP1 : Str := ("An error occurred while processing your question: ").data

/-- `QueryRetrievalSystem._answer_single_question` (lines 91-119). -/
def answer_single_question (e : QEffects) (question : Str) : Str :=
  match e.searchExn with
  | some msg => errAnswerP1 ++ msg
  | none =>
    if e.searchResult = [] then noInfoMsg
    else evaluate_retrieved_content e.evalLLM question (e.searchResult.map Prod.fst)

/-- The question loop of `process_document_and_questions` (lines 74-81):
one answer is appended per question, in input order. -/
def processQuestions (eff : Nat → QEffects) : List Str → Nat → List Str
  | [], _ => []
  | q :: qs, i => answer_single_question (eff i) q :: processQuestions eff qs (i + 1)

/-- `process_document_and_questions` (query_retrieval_system.py lines
54-89): an empty chunk list raises (line 63), as does any exception in
the embedding / vector-database population steps (`preFail`); otherwise
every question is answered in order. -/
def process_document_and_questions (chunks : List PDFProc.Chunk) (preFail : Bool)
    (eff : Nat → QEffects) (questions : List Str) : Except Unit (List Str) :=
  if chunks = [] then .error ()
  else if preFail then .error ()
  else .ok (processQuestions eff questions 0)

end Core

/-- The question loop returns exactly one answer per question, the one
computed from that question's own effects. -/
theorem processQuestions_spec (eff : Nat → Core.QEffects) :
    ∀ (qs : List Str) (i : Nat),
      (Core.processQuestions eff qs i).length = qs.length
      ∧ ∀ (j : Nat) (hj : j < (Core.processQuestions eff qs i).length)
          (hq : j < qs.length),
          (Core.processQuestions eff qs i).get ⟨j, hj⟩
            = Core.answer_single_question (eff (i + j)) (qs.get ⟨j, hq⟩) := by
  intro qs
  induction qs with
  | nil =>
    intro i
    exact ⟨rfl, fun j hj hq => absurd hq (by simp)⟩
  | cons q rest ih =>
    intro i
    constructor
    · show (Core.answer_single_question (eff i) q
          :: Core.processQuestions eff rest (i + 1)).length = _
      rw [List.length_cons, (ih (i + 1)).1]
      rfl
    · intro j hj hq
      cases j with
      | zero =>
        show Core.answer_single_question (eff i) q = Core.answer_single_question (eff (i + 0)) q
        rw [Nat.add_zero]
      | succ k =>
        have hj' : k < (Core.processQuestions eff rest (i + 1)).length := by
          have := hj
          rw [show Core.processQuestions eff (q :: rest) i
              = Core.answer_single_question (eff i) q
                :: Core.processQuestions eff rest (i + 1) from rfl] at this
          simp only [List.length_cons] at this
          omega
        have hq' : k < rest.length := by
          simp only [List.length_cons] at hq
          omega
        show (Core.processQuestions eff rest (i + 1)).get ⟨k, hj'⟩
            = Core.answer_single_question (eff (i + (k + 1))) ((q :: rest).get ⟨k + 1, hq⟩)
        have := ((ih (i + 1)).2 k hj' hq')
        rw [this]
        have harith : i + 1 + k = i + (k + 1) := by omega
        rw [harith]
        rfl

/-! ### Claim C1: one answer per question, in input order -/

/-- C1: for every request the pipeline accepts, the returned answers
list has exactly one answer per input question, in the same order.  In
the `src/` pipeline (`process_document_and_questions`), a successful
result has one entry per question and the `j`-th answer is computed
from the `j`-th question; in the `app.py` webhook (`webhook_test`), a
successful response has answers and confidence scores lists whose
lengths equal the number of questions. -/
theorem C1_one_answer_per_question :
    (∀ (chunks : List PDFProc.Chunk) (preFail : Bool) (eff : Nat → Core.QEffects)
        (questions : List Str) (answers : List Str),
        Core.process_document_and_questions chunks preFail eff questions
            = Except.ok answers →
        answers.length = questions.length
        ∧ ∀ (j : Nat) (hj : j < answers.length) (hq : j < questions.length),
            answers.get ⟨j, hj⟩
              = Core.answer_single_question (eff j) (questions.get ⟨j, hq⟩))
    ∧ (∀ (questions : List Str) (dl : Except Unit (List Nat))
        (ex : App.ExtractOracles) (gemini : Nat → Except Str Str)
        (r : App.QueryResponseM),
        App.webhook_test questions dl ex gemini = Except.ok r →
        r.answers.length = questions.length
        ∧ r.confidence_scores.length = questions.length) := by
  constructor
  · intro chunks preFail eff questions answers h
    rw [Core.process_document_and_questions] at h
    by_cases hc : chunks = []
    · rw [if_pos hc] at h
      exact Except.noConfusion h
    · rw [if_neg hc] at h
      by_cases hp : preFail = true
      · rw [if_pos hp] at h
        exact Except.noConfusion h
      · rw [if_neg hp] at h
        injection h with h
        subst h
        refine ⟨(processQuestions_spec eff questions 0).1, ?_⟩
        intro j hj hq
        rw [(processQuestions_spec eff questions 0).2 j hj hq, Nat.zero_add]
  · intro questions dl ex gemini r h
    rw [App.webhook_test.eq_def] at h
    by_cases hq0 : questions = []
    · rw [if_pos hq0] at h
      exact Except.noConfusion h
    · rw [if_neg hq0] at h
      by_cases h10 : 10 < questions.length
      · rw [if_pos h10] at h
        exact Except.noConfusion h
      · rw [if_neg h10] at h
        cases dl with
        | error e =>
          have hb : (Except.error 400 : Except Nat App.QueryResponseM)
              = Except.ok r := h
          exact Except.noConfusion hb
        | ok pdf =>
          have hb : App.webhookBody questions pdf ex gemini = Except.ok r := h
          rw [App.webhookBody] at hb
          split at hb
          · injection hb with hb
            subst hb
            constructor
            · show (List.replicate questions.length _).length = _
              rw [List.length_replicate]
            · show (List.replicate questions.length (0 : ℚ)).length = _
              rw [List.length_replicate]
          · injection hb with hb
            subst hb
            exact ⟨(webhookLoop_length gemini _ _ questions 0).1,
                   (webhookLoop_length gemini _ _ questions 0).2⟩

/-- Witness for C1 at a concrete accepted request: one chunk, no
pre-processing failure, a search that returns nothing, one question. -/
theorem C1_one_answer_per_question_witness :
    ([Core.noInfoMsg] : List Str).length = [("q").data].length
    ∧ ([Core.noInfoMsg] : List Str).get ⟨0, by decide⟩
        = Core.answer_single_question
            (⟨none, [], none⟩ : Core.QEffects) (("q").data) :=
  ⟨(C1_one_answer_per_question.1 [⟨0, [], 1, 0, 0⟩] false
      (fun _ => ⟨none, [], none⟩) [("q").data] [Core.noInfoMsg] rfl).1,
   (C1_one_answer_per_question.1 [⟨0, [], 1, 0, 0⟩] false
      (fun _ => ⟨none, [], none⟩) [("q").data] [Core.noInfoMsg] rfl).2
     0 (by decide) (by decide)⟩

/-! ### Claim C2: graceful degradation when extraction fails -/

/-- C2: when every PDF-parsing strategy yields no usable text, the
extractor returns the sentinel string (which starts with "ERROR:")
instead of raising, and an otherwise valid webhook request still
succeeds with one answer per question — each embedding the sentinel's
extraction-failure message — and one (zero) confidence score per
question, rather than aborting. -/
theorem C2_graceful_extraction_failure (ex : App.ExtractOracles) (pdf : List Nat)
    (questions : List Str) (gemini : Nat → Except Str Str)
    (h1 : App.pypdf2Extract ex = none)
    (h2 : App.pymupdfExtract ex = none)
    (h3 : App.lastResortExtract ex pdf.length = none)
    (hq : ¬ questions = []) (h10 : ¬ 10 < questions.length) :
    App.extract_text_from_pdf_enhanced ex pdf.length = App.errorSentinel
    ∧ List.isPrefixOf App.errPrefix App.errorSentinel = true
    ∧ App.webhook_test questions (Except.ok pdf) ex gemini
        = Except.ok ⟨List.replicate questions.length
              (App.unableMsgP1 ++ App.errorSentinel ++ App.unableMsgP2),
            false, List.replicate questions.length 0⟩
    ∧ (List.replicate questions.length
          (App.unableMsgP1 ++ App.errorSentinel ++ App.unableMsgP2)).length
        = questions.length := by
  have hext : App.extract_text_from_pdf_enhanced ex pdf.length = App.errorSentinel := by
    rw [App.extract_text_from_pdf_enhanced, h1, h2, h3]
  refine ⟨hext, by decide, ?_, List.length_replicate _ _⟩
  rw [App.webhook_test.eq_def, if_neg hq, if_neg h10]
  show App.webhookBody questions pdf ex gemini = _
  rw [App.webhookBody, hext]
  rw [if_pos (Or.inr (show List.isPrefixOf App.errPrefix App.errorSentinel = true
    by decide))]
  rw [if_pos ⟨show ¬ App.errorSentinel = [] by decide,
    show List.isPrefixOf App.errPrefix App.errorSentinel = true by decide⟩]

/-- Witness for C2: all three strategy oracles fail on a tiny document,
one question. -/
theorem C2_graceful_extraction_failure_witness :
    App.extract_text_from_pdf_enhanced ⟨none, none, none⟩
        (List.length ([] : List Nat)) = App.errorSentinel
    ∧ List.isPrefixOf App.errPrefix App.errorSentinel = true
    ∧ App.webhook_test [("q").data] (Except.ok ([] : List Nat))
          ⟨none, none, none⟩ (fun _ => Except.error [])
        = Except.ok ⟨List.replicate ([("q").data] : List Str).length
              (App.unableMsgP1 ++ App.errorSentinel ++ App.unableMsgP2),
            false, List.replicate ([("q").data] : List Str).length 0⟩
    ∧ (List.replicate ([("q").data] : List Str).length
          (App.unableMsgP1 ++ App.errorSentinel ++ App.unableMsgP2)).length
        = ([("q").data] : List Str).length :=
  C2_graceful_extraction_failure ⟨none, none, none⟩ [] [("q").data]
    (fun _ => Except.error []) rfl rfl rfl (by decide) (by decide)

/-! ### Claim C5: deterministic LLM fallback and per-question isolation -/

/-- C5: when the LLM call fails while answering a question whose search
returned at least one chunk, the answer is the deterministic fallback
built from the first (best-scoring) retrieved chunk — its page citation
and its first 300 characters — not a propagated error; and in the
question loop, the `j`-th answer depends only on the `j`-th question's
own effects, so one question's failure never changes any other
question's answer. -/
theorem C5_llm_fallback :
    (∀ (e : Core.QEffects) (question : Str) (best : Core.ChunkMeta) (s : ℚ)
        (rest : List (Core.ChunkMeta × ℚ)),
        e.searchExn = none → e.evalLLM = none →
        e.searchResult = (best, s) :: rest →
        Core.answer_single_question e question
          = Core.fallbackP1 ++ (Nat.repr best.page_number).data ++ Core.fallbackP2
              ++ best.content.take 300 ++ ("...").data)
    ∧ (∀ (eff eff' : Nat → Core.QEffects) (qs : List Str) (j : Nat)
        (hj : j < (Core.processQuestions eff qs 0).length)
        (hj' : j < (Core.processQuestions eff' qs 0).length)
        (hq : j < qs.length),
        eff j = eff' j →
        (Core.processQuestions eff qs 0).get ⟨j, hj⟩
          = (Core.processQuestions eff' qs 0).get ⟨j, hj'⟩) := by
  constructor
  · intro e question best s rest hx hl hs
    rw [Core.answer_single_question.eq_def, hx, hs, hl]
    rfl
  · intro eff eff' qs j hj hj' hq heq
    rw [(processQuestions_spec eff qs 0).2 j hj hq,
        (processQuestions_spec eff' qs 0).2 j hj' hq, Nat.zero_add, heq]

/-- Witness for C5: a failed LLM call over one retrieved chunk on page 3
yields the fallback answer citing page 3 with the chunk's text. -/
theorem C5_llm_fallback_witness :
    Core.answer_single_question
        ⟨none, [(⟨7, ("text").data, 3⟩, (1 : ℚ)/2)], none⟩ (("q").data)
      = Core.fallbackP1 ++ (Nat.repr 3).data ++ Core.fallbackP2
          ++ (("text").data).take 300 ++ ("...").data :=
  C5_llm_fallback.1 ⟨none, [(⟨7, ("text").data, 3⟩, (1 : ℚ)/2)], none⟩
    (("q").data) ⟨7, ("text").data, 3⟩ ((1 : ℚ)/2) [] rfl rfl rfl

namespace VecDB

/-!
Shallow embedding of `FAISSVectorDB._normalize_vectors`
(vector_db_manager.py lines 117-121) and the similarity metric of
`FAISSVectorDB.search` (lines 85-104, over a `faiss.IndexFlatIP` inner
product index, line 57).  Vectors are rows of reals; the numpy float
arithmetic is modelled exactly over `ℝ`.
-/

/-- `np.linalg.norm(v)`: the L2 norm of one row. -/
noncomputable def l2norm (v : List ℝ) : ℝ :=
  Real.sqrt ((v.map (fun x => x * x)).sum)

/-- The divisor actually used: `norms[norms == 0] = 1` replaces a zero
norm by 1 (line 120). -/
noncomputable def safeNorm (v : List ℝ) : ℝ :=
  if l2norm v = 0 then 1 else l2norm v

/-- One row of `vectors / norms` (line 121). -/
noncomputable def normalizeRow (v : List ℝ) : List ℝ :=
  v.map (fun x => x / safeNorm v)

/-- `_normalize_vectors`: every row is normalized independently. -/
noncomputable def normalize_vectors (vs : List (List ℝ)) : List (List ℝ) :=
  vs.map normalizeRow

/-- The inner product computed by `IndexFlatIP` over two stored rows. -/
noncomputable def innerProd (u v : List ℝ) : ℝ :=
  (List.zipWith (· * ·) u v).sum

end VecDB

/-- Pulling a constant factor out of the summed pairwise products. -/
theorem zipWith_mul_const_sum (c : ℝ) :
    ∀ (u v : List ℝ),
      (List.zipWith (fun x y => x * y * c) u v).sum
        = (List.zipWith (fun x y => x * y) u v).sum * c := by
  intro u
  induction u with
  | nil => intro v; simp
  | cons a us ih =>
    intro v
    cases v with
    | nil => simp
    | cons b vs =>
      rw [List.zipWith_cons_cons, List.zipWith_cons_cons, List.sum_cons,
        List.sum_cons, ih, add_mul]

/-- C9: normalization never divides by zero — the divisor is never 0;
a zero-norm row is left unchanged (its norm is replaced by 1); a
nonzero-norm row is L2-normalized to unit norm; the inner product of
two normalized nonzero rows is exactly their cosine similarity; and
`_normalize_vectors` normalizes every stored row independently. -/
theorem C9_normalization_safe :
    (∀ v : List ℝ, VecDB.safeNorm v ≠ 0)
    ∧ (∀ v : List ℝ, VecDB.l2norm v = 0 → VecDB.normalizeRow v = v)
    ∧ (∀ v : List ℝ, VecDB.l2norm v ≠ 0 → VecDB.l2norm (VecDB.normalizeRow v) = 1)
    ∧ (∀ u v : List ℝ, VecDB.l2norm u ≠ 0 → VecDB.l2norm v ≠ 0 →
        VecDB.innerProd (VecDB.normalizeRow u) (VecDB.normalizeRow v)
          = VecDB.innerProd u v / (VecDB.l2norm u * VecDB.l2norm v))
    ∧ (∀ (vs : List (List ℝ)) (i : Nat)
        (h : i < (VecDB.normalize_vectors vs).length) (h' : i < vs.length),
        (VecDB.normalize_vectors vs).get ⟨i, h⟩
          = VecDB.normalizeRow (vs.get ⟨i, h'⟩)) := by
  refine ⟨?_, ?_, ?_, ?_, ?_⟩
  · intro v
    rw [VecDB.safeNorm]
    by_cases h : VecDB.l2norm v = 0
    · rw [if_pos h]; exact one_ne_zero
    · rw [if_neg h]; exact h
  · intro v h
    rw [VecDB.normalizeRow, VecDB.safeNorm, if_pos h]
    simp
  · intro v h
    have hS0 : (0:ℝ) ≤ (v.map (fun x => x * x)).sum :=
      List.sum_nonneg (by
        intro x hx
        obtain ⟨a, _, rfl⟩ := List.mem_map.mp hx
        exact mul_self_nonneg a)
    have hs : VecDB.l2norm v = Real.sqrt ((v.map (fun x => x * x)).sum) := rfl
    have hSne : (v.map (fun x => x * x)).sum ≠ 0 := by
      intro h0
      exact h (by rw [hs, h0, Real.sqrt_zero])
    have hnr : VecDB.normalizeRow v
        = v.map (fun x => x / Real.sqrt ((v.map (fun y => y * y)).sum)) := by
      rw [VecDB.normalizeRow, VecDB.safeNorm, if_neg h, hs]
    rw [hnr, VecDB.l2norm, List.map_map]
    have hcomp : ((fun x : ℝ => x * x)
          ∘ fun x : ℝ => x / Real.sqrt ((v.map (fun y => y * y)).sum))
        = fun x : ℝ => (x * x) * ((v.map (fun y => y * y)).sum)⁻¹ := by
      funext x
      show (x / Real.sqrt _) * (x / Real.sqrt _) = _
      rw [div_mul_div_comm, Real.mul_self_sqrt hS0, div_eq_mul_inv]
    rw [hcomp, List.sum_map_mul_right, mul_inv_cancel₀ hSne, Real.sqrt_one]
  · intro u v hu hv
    have hsu : VecDB.safeNorm u = VecDB.l2norm u := by
      rw [VecDB.safeNorm, if_neg hu]
    have hsv : VecDB.safeNorm v = VecDB.l2norm v := by
      rw [VecDB.safeNorm, if_neg hv]
    have hnu : VecDB.normalizeRow u = u.map (fun x => x / VecDB.l2norm u) := by
      rw [VecDB.normalizeRow, hsu]
    have hnv : VecDB.normalizeRow v = v.map (fun x => x / VecDB.l2norm v) := by
      rw [VecDB.normalizeRow, hsv]
    show (List.zipWith (· * ·) (VecDB.normalizeRow u) (VecDB.normalizeRow v)).sum
        = (List.zipWith (· * ·) u v).sum / (VecDB.l2norm u * VecDB.l2norm v)
    rw [hnu, hnv, List.zipWith_map]
    have hfun : (fun (a b : ℝ) => (a / VecDB.l2norm u) * (b / VecDB.l2norm v))
        = fun a b => a * b * (VecDB.l2norm u * VecDB.l2norm v)⁻¹ := by
      funext a b
      rw [div_mul_div_comm, div_eq_mul_inv]
    rw [hfun, zipWith_mul_const_sum, div_eq_mul_inv]
  · intro vs i h h'
    simp [VecDB.normalize_vectors]

/-- Witness for C9: a zero row stays unchanged; the unit row keeps unit
norm; cosine of the normalized unit row with itself. -/
theorem C9_normalization_safe_witness :
    VecDB.normalizeRow [(0:ℝ)] = [(0:ℝ)]
    ∧ VecDB.l2norm (VecDB.normalizeRow [(1:ℝ)]) = 1
    ∧ VecDB.innerProd (VecDB.normalizeRow [(1:ℝ)]) (VecDB.normalizeRow [(1:ℝ)])
        = VecDB.innerProd [(1:ℝ)] [(1:ℝ)]
            / (VecDB.l2norm [(1:ℝ)] * VecDB.l2norm [(1:ℝ)]) :=
  have h0 : VecDB.l2norm [(0:ℝ)] = 0 := by
    show Real.sqrt (0 * 0 + 0) = 0
    rw [show (0:ℝ) * 0 + 0 = 0 by norm_num, Real.sqrt_zero]
  have h1 : VecDB.l2norm [(1:ℝ)] ≠ 0 := by
    show Real.sqrt (1 * 1 + 0) ≠ 0
    rw [show (1:ℝ) * 1 + 0 = 1 by norm_num, Real.sqrt_one]
    exact one_ne_zero
  ⟨C9_normalization_safe.2.1 [(0:ℝ)] h0,
   C9_normalization_safe.2.2.1 [(1:ℝ)] h1,
   C9_normalization_safe.2.2.2.1 [(1:ℝ)] [(1:ℝ)] h1 h1⟩
